import Mathlib

/-!
Verification development for the integration-flow pipeline
(`src/integration`), a six-stage batch tool that classifies integration
points, resolves call targets, builds a call graph, enumerates flows,
mines patterns, and slices flows into test windows.

The Python stages are embedded shallowly: Python dicts of lists become
association-style lookups or filter/map expressions that agree with the
dict per key (including per-key insertion order); Python string
truthiness (`if s:`) is modelled as `s ≠ ""`; optional values are
`Option`; iteration over a Python `set` (whose order is hash-dependent)
is modelled by an explicit order parameter.
-/

namespace IntegrationFlow

/-- Python-style falsy-or on strings: `a or b` where `""` is falsy
(used for `x or 'unknown'` chains in the source). -/
def pyOr (a b : String) : String := if a = "" then b else a

/-- Python f-string rendering of an optional string (`None` prints as
`"None"`). -/
def fmtPyOpt : Option String → String
  | some s => s
  | none => "None"

/-- Python `x or 'UNKNOWN'` where `x : Option String` (`None` and `""`
are both falsy). -/
def orElseStr (o : Option String) (d : String) : String :=
  match o with
  | some s => if s = "" then d else s
  | none => d

/-- One integration point as read from the Stage 1 output document.
Stage 2 (`classify_integration_points`) reads `id`, `sourceCallableId`,
`target` and the truthiness of `boundary`; Stage 3
(`build_integration_graph`) additionally reads `sourceUnit`.
Missing-string fields (`dict.get` returning `None`) are modelled as `""`,
matching Python truthiness tests in the source. -/
structure Point where
  id : String
  sourceUnit : String
  sourceCallableId : String
  target : String
  boundary : Bool
  deriving Repr, DecidableEq

/-- Output of Stage 2 (`classify_integration_points`): the three id
lists, in input order. -/
structure Classification where
  entryPoints : List String
  intermediateSeams : List String
  terminalNodes : List String
  deriving Repr, DecidableEq

/-- Key-membership test for the Stage 2 map
`targets_with_incoming : raw target text → [point ids]`: a key is
present iff some point has that (truthy) raw `target`. Only key
membership is consulted by the classifier. -/
def hasIncomingKey (points : List Point) (k : String) : Bool :=
  points.any (fun p => p.target ≠ "" && p.target == k)

/-- Key-membership test for the Stage 2 map
`callables_with_outgoing : source callable id → [point ids]`: a key is
present iff some point has that (truthy) `sourceCallableId`. -/
def hasOutgoingKey (points : List Point) (k : String) : Bool :=
  points.any (fun p => p.sourceCallableId ≠ "" && p.sourceCallableId == k)

/-- Membership in the Stage 2 set `boundary_ids` (ids of points whose
`boundary` field is truthy). -/
def isBoundaryId (points : List Point) (k : String) : Bool :=
  points.any (fun p => p.boundary && p.id == k)

/-- The per-point classification loop of `classify_integration_points`
(stage2, lines 94-130): boundary ⇒ terminal; else source callable not a
key of `targets_with_incoming` ⇒ entry; else raw target not a key of
`callables_with_outgoing` ⇒ terminal; else intermediate. Note the code
tests the callable id against a map keyed by raw target text and the
raw target text against a map keyed by callable ids. -/
def classifyLoop (all : List Point) : List Point → List String × List String × List String
  | [] => ([], [], [])
  | p :: ps =>
    let (e, m, t) := classifyLoop all ps
    if isBoundaryId all p.id then (e, m, p.id :: t)
    else if ! hasIncomingKey all p.sourceCallableId then (p.id :: e, m, t)
    else if ! hasOutgoingKey all p.target then (e, m, p.id :: t)
    else (e, p.id :: m, t)

/-- Stage 2 `classify_integration_points`: builds the relationship maps
over the full input and classifies every point. -/
def classifyIntegrationPoints (points : List Point) : Classification :=
  let (e, m, t) := classifyLoop points points
  { entryPoints := e, intermediateSeams := m, terminalNodes := t }

/-- One record of the Stage 3 callable index (`build_callable_index`):
`{'unit', 'callableId', 'qualifiedName', 'fullQualified'}`. -/
structure CallableEntry where
  unit : String
  callableId : String
  qualifiedName : String
  fullQualified : String
  deriving Repr, DecidableEq

/-- The Stage 3 callable index: name → list of candidate records, keys
unique (a Python dict). -/
def CallableIndex := List (String × List CallableEntry)

/-- Dict lookup on the callable index (first matching key; keys are
unique in the source's dict). -/
def indexLookup (idx : CallableIndex) (k : String) : Option (List CallableEntry) :=
  (idx.find? (fun kv => kv.1 == k)).map (fun kv => kv.2)

/-- Outcome of Stage 3 `resolve_target`. The Python dict carries
`status` plus per-status fields; `unitId` and `unitName` are always set
to the same value (`match['unit']`), so one `unitName` field models
both. -/
inductive Resolution where
  | resolved (unitName callableId name qualifiedName callableName : String)
  | ambiguous (name : String) (matchList : List String)
  | unresolved
  deriving Repr, DecidableEq

/-- Split a character list at every occurrence of `c` (the semantics of
Python `str.split` with a one-character separator). -/
def splitOnChar (c : Char) : List Char → List (List Char)
  | [] => [[]]
  | x :: xs =>
    if x = c then [] :: splitOnChar c xs
    else
      match splitOnChar c xs with
      | [] => [[x]]
      | y :: ys => (x :: y) :: ys

/-- The Python expression `target.split('.')[-1]`. -/
def lastDotComponent (target : String) : String :=
  String.mk ((splitOnChar '.' target.data).getLastD [])

/-- Stage 3 `resolve_target` (stage3_build_integration_graph.py lines
176-224): a single dictionary lookup of the raw target string. Empty or
unindexed target ⇒ unresolved; exactly one record ⇒ resolved; otherwise
⇒ ambiguous carrying every candidate's `fullQualified` string. There is
no caller context, no entry-id / address / qualified-name / local-path
steps, and no same-unit narrowing. -/
def resolveTarget (target : String) (idx : CallableIndex) : Resolution :=
  if target = "" then .unresolved
  else
    match indexLookup idx target with
    | none => .unresolved
    | some ms =>
      match ms with
      | [m] => .resolved m.unit m.callableId target m.qualifiedName (lastDotComponent target)
      | _ => .ambiguous target (ms.map (fun m => m.fullQualified))

/-- A directed edge of the Stage 3 integration graph:
`{'from': ..., 'to': ..., 'reason': ...}`. -/
structure Edge where
  from_ : String
  to_ : String
  reason : String
  deriving Repr, DecidableEq

/-- The per-key content of the Stage 3 dict
`integrations_by_source_callable : (sourceUnit, sourceCallableId) → [ids]`:
for a fixed key it holds, in input order, the ids of the points whose
(truthy) source unit and source callable id equal the key. -/
def bySourceCallable (points : List Point) (key : String × String) : List String :=
  (points.filter (fun p =>
    p.sourceUnit ≠ "" && p.sourceCallableId ≠ "" &&
    p.sourceUnit == key.1 && p.sourceCallableId == key.2)).map (fun p => p.id)

/-- The edge text built by `build_integration_graph`:
`f'{point_id} calls {target}, which contains {target_integration_id}'`. -/
def edgeReason (pointId target targetIntegrationId : String) : String :=
  pointId ++ " calls " ++ target ++ ", which contains " ++ targetIntegrationId

/-- Edges contributed by one point in the Stage 3 edge loop (lines
328-352): nothing unless its target resolution is `resolved` with
truthy unit and callable id; otherwise one edge to every id in the
`integrations_by_source_callable` bucket of the resolved identity. -/
def edgesOfPoint (points : List Point) (idx : CallableIndex) (p : Point) : List Edge :=
  match resolveTarget p.target idx with
  | .resolved un cid _ _ _ =>
    if un ≠ "" ∧ cid ≠ "" then
      (bySourceCallable points (un, cid)).map
        (fun tid => { from_ := p.id, to_ := tid, reason := edgeReason p.id p.target tid })
    else []
  | _ => []

/-- A Stage 3 graph node: the point, its stored target resolution, and
the exclusion annotation added when the resolved target callable
carries a `MechanicalOperation`/`UtilityOperation` decorator. -/
structure GraphPoint where
  point : Point
  resolution : Resolution
  excludeFromFlows : Bool
  fixtureCallableId : Option String
  deriving Repr, DecidableEq

/-- Node construction of `build_integration_graph` (lines 272-303).
`isExcluded cid unit` stands for `check_for_exclusion_decorator`, which
walks the ledger files for a decorator on the resolved callable; the
ledger contents are an input of the stage, so the check is a parameter
here. -/
def resolvePoint (isExcluded : String → String → Bool) (idx : CallableIndex)
    (p : Point) : GraphPoint :=
  match resolveTarget p.target idx with
  | .resolved un cid nm qn cn =>
    if cid ≠ "" && un ≠ "" && isExcluded cid un then
      { point := p, resolution := .resolved un cid nm qn cn,
        excludeFromFlows := true, fixtureCallableId := some cid }
    else
      { point := p, resolution := .resolved un cid nm qn cn,
        excludeFromFlows := false, fixtureCallableId := none }
  | r => { point := p, resolution := r, excludeFromFlows := false, fixtureCallableId := none }

/-- Output of Stage 3 `build_integration_graph` that later stages read:
the resolved nodes and the edge list. -/
structure Graph where
  nodes : List GraphPoint
  edges : List Edge
  deriving Repr, DecidableEq

/-- Stage 3 `build_integration_graph` (node resolution plus the edge
loop; diagnostics counters are omitted as pure output metadata). -/
def buildIntegrationGraph (isExcluded : String → String → Bool)
    (points : List Point) (idx : CallableIndex) : Graph :=
  { nodes := points.map (resolvePoint isExcluded idx),
    edges := points.foldl (fun acc p => acc ++ edgesOfPoint points idx p) [] }

/-- Whether a resolution outcome has status `resolved`. -/
def Resolution.isResolved : Resolution → Bool
  | .resolved _ _ _ _ _ => true
  | _ => false

/-- Decimal digit character. -/
def decDigit : Nat → Char
  | 0 => '0' | 1 => '1' | 2 => '2' | 3 => '3' | 4 => '4'
  | 5 => '5' | 6 => '6' | 7 => '7' | 8 => '8' | _ => '9'

/-- Decimal digits of `n`, most significant first (`fuel ≥ n + 1`
always suffices). -/
def natDigitsAux : Nat → Nat → List Char
  | 0, _ => []
  | fuel + 1, n => if n < 10 then [decDigit n] else natDigitsAux fuel (n / 10) ++ [decDigit (n % 10)]

/-- Decimal rendering of a natural number. -/
def natToString (n : Nat) : String :=
  String.mk (natDigitsAux (n + 1) n)

/-- Zero-pad a decimal string on the left to width `w` (Python
`f'{n:0wd}'` for non-negative `n`). -/
def padZero (w : Nat) (s : String) : String :=
  if s.length < w then String.mk (List.replicate (w - s.length) '0') ++ s else s

/-- The Python expression `sep.join(parts)` (`str.join`). -/
def joinSep (sep : String) : List String → String
  | [] => ""
  | [x] => x
  | x :: xs => x ++ sep ++ joinSep sep xs

/-- The boundary descriptor attached to a graph node; only its `kind`
is consulted by Stages 4-6. -/
structure BoundaryInfo where
  kind : String
  deriving Repr, DecidableEq

/-- The fields of a node's stored `target_resolved` record that Stage 4
reads (`unit_name`, `callable_name`). -/
structure TargetResolvedView where
  unitName : Option String
  callableName : Option String
  deriving Repr, DecidableEq

/-- A graph node as consumed by Stages 4-6 (`GraphNode` of
`shared/data_structures.py`, restricted to the fields those stages
read; carried-through metadata fields such as `kind` and
`execution_paths` are omitted). -/
structure GNode where
  id : String
  sourceUnit : String
  sourceCallableId : String
  sourceCallableName : String
  target : String
  targetResolved : TargetResolvedView
  boundary : Option BoundaryInfo
  excludeFromFlows : Bool
  fixtureCallableId : Option String
  deriving Repr, DecidableEq

/-- The input graph document of Stages 4 and 5: nodes, edges and the
Stage 2 classification lists. -/
structure GraphData where
  nodes : List GNode
  edges : List Edge
  entryPoints : List String
  terminalNodes : List String
  deriving Repr, DecidableEq

/-- Per-key content of the adjacency dict built by Stages 4 and 5: the
`to` ids, in edge order, of the edges with truthy `from`/`to` whose
`from` equals `x`. -/
def adjacencyOf (edges : List Edge) (x : String) : List String :=
  (edges.filter (fun e => e.from_ ≠ "" && e.to_ ≠ "" && e.from_ == x)).map (fun e => e.to_)

/-- Lookup in the dict comprehension `{node.id: node for node in
nodes_list}`: the LAST node carrying the id wins, as later dict
insertions overwrite earlier ones. -/
def nodesById (ns : List GNode) (i : String) : Option GNode :=
  ns.foldl (fun acc n => if n.id = i then some n else acc) none

/-- The `FlowTermination` record as constructed by Stage 5. -/
structure FlowTermination where
  integrationId : String
  reason : String
  note : Option String
  deriving Repr, DecidableEq

/-- The `EntryPointInfo` record as constructed by Stage 5. -/
structure EntryPointInfo where
  integrationId : String
  unitId : String
  callableId : String
  callableName : String
  wayIn : String
  deriving Repr, DecidableEq

/-- A flow emitted by Stage 5. -/
structure Flow where
  flowId : String
  description : String
  length : Nat
  sequence : List GNode
  entryPoint : EntryPointInfo
  termination : FlowTermination
  deriving Repr, DecidableEq

/-- Entry-point info of a flow (Stage 5 lines 149-165 / 213-229). -/
def mkEntryInfo (lookup : String → Option GNode) (entryId : String) : EntryPointInfo :=
  match lookup entryId with
  | some n =>
    { integrationId := entryId, unitId := n.sourceUnit, callableId := n.sourceCallableId,
      callableName := n.sourceCallableName,
      wayIn := "Call " ++ n.sourceCallableName ++ " to reach first integration point" }
  | none =>
    { integrationId := entryId, unitId := "unknown", callableId := "unknown",
      callableName := "unknown", wayIn := "unknown" }

/-- Description string of a flow (`' → '.join(...)` over the sequence,
substituting `FIXTURE_<id or UNKNOWN>` for excluded nodes). -/
def flowDescription (sequence : List GNode) : String :=
  joinSep " → " (sequence.map (fun n =>
    if n.excludeFromFlows then "FIXTURE_" ++ orElseStr n.fixtureCallableId "UNKNOWN"
    else n.target))

/-- Termination note of a `no_outgoing_edges` flow (Stage 5 lines
232-240). -/
def noOutgoingNote (lookup : String → Option GNode) (currentId : String) : Option String :=
  match lookup currentId with
  | some n =>
    some (match n.boundary with
      | some b => "Boundary integration: " ++ b.kind
      | none =>
        if n.excludeFromFlows then "Excluded operation: " ++ fmtPyOpt n.fixtureCallableId
        else "Leaf node in integration graph")
  | none => none

/-- Assemble one emitted flow (the recording block Stage 5 duplicates
at its two termination sites, parameterised by reason and note).
`fid` is the already-incremented flow counter. -/
def mkFlow (lookup : String → Option GNode) (entryId currentId : String)
    (path : List String) (fid : Nat) (reason : String) (note : Option String) : Flow :=
  let sequence := path.filterMap lookup
  { flowId := "FLOW_" ++ padZero 4 (natToString fid),
    description := flowDescription sequence,
    length := path.length,
    sequence := sequence,
    entryPoint := mkEntryInfo lookup entryId,
    termination := { integrationId := currentId, reason := reason, note := note } }

/-- Stage 5 hard limit on total flows. -/
def maxFlowsTotal : Nat := 10000

/-- Stage 5 limit on flows per entry point. -/
def maxFlowsPerEntry : Nat := 100

/-- Stage 5 limit on explored paths per entry point. -/
def maxPathsPerEntry : Nat := 10000

/-- One entry of the Stage 5 DFS stack:
`(current_id, path_so_far, visited_set)`. The Python set is modelled as
a list used only through membership. -/
structure SearchState where
  current : String
  path : List String
  visited : List String
  deriving Repr, DecidableEq

/-- The Stage 5 `while stack:` loop for one entry point
(stage5_enumerate_flows.py lines 107-275). The stack top is the list
head (Python appends and pops at the end). Checked per iteration, in
source order: the explored-paths cap, the per-entry flow cap, the total
flow cap, then the depth limit, then the zero-out-edges test, else one
push per neighbor not on the current path. `fuel` only bounds the
recursion; starting from `paths explored = 0` with
`fuel = maxPathsPerEntry` it can never run out before the
explored-paths cap fires, because every iteration consumes one unit of
each. Returns the flows, in emission order, and the final global flow
counter. -/
def dfsEntry (maxDepth : Nat) (adj : String → List String) (lookup : String → Option GNode)
    (entryId : String) : Nat → List SearchState → Nat → Nat → Nat → List Flow × Nat
  | _, [], fc, _, _ => ([], fc)
  | 0, _ :: _, fc, _, _ => ([], fc)
  | fuel + 1, s :: rest, fc, ffe, pe =>
    if maxPathsPerEntry ≤ pe + 1 then ([], fc)
    else if maxFlowsPerEntry ≤ ffe then ([], fc)
    else if maxFlowsTotal ≤ fc then ([], fc)
    else if maxDepth ≤ s.path.length then
      let fl := mkFlow lookup entryId s.current s.path (fc + 1) "depth_limit"
        (some ("Flow exceeded maximum depth of " ++ natToString maxDepth ++ " hops"))
      let r := dfsEntry maxDepth adj lookup entryId fuel rest (fc + 1) (ffe + 1) (pe + 1)
      (fl :: r.1, r.2)
    else
      match adj s.current with
      | [] =>
        let fl := mkFlow lookup entryId s.current s.path (fc + 1) "no_outgoing_edges"
          (noOutgoingNote lookup s.current)
        let r := dfsEntry maxDepth adj lookup entryId fuel rest (fc + 1) (ffe + 1) (pe + 1)
        (fl :: r.1, r.2)
      | n :: ns =>
        let pushes := ((n :: ns).filter (fun x => x ∉ s.visited)).map
          (fun x => SearchState.mk x (s.path ++ [x]) (x :: s.visited))
        dfsEntry maxDepth adj lookup entryId fuel (pushes.reverse ++ rest) fc ffe (pe + 1)

/-- The Stage 5 outer loop over entry points (lines 88-105): skip entry
ids absent from the node map, stop the whole loop once the total-flow
cap is reached, and run the per-entry DFS with fresh per-entry
counters. The iteration order of the Python `set` of entry points is
the explicit `entryIter` argument. -/
def enumerateFlowsFrom (maxDepth : Nat) (adj : String → List String)
    (lookup : String → Option GNode) : List String → Nat → List Flow
  | [], _ => []
  | e :: es, fc =>
    if (lookup e).isNone then enumerateFlowsFrom maxDepth adj lookup es fc
    else if maxFlowsTotal ≤ fc then []
    else
      let r := dfsEntry maxDepth adj lookup e maxPathsPerEntry
        [SearchState.mk e [e] [e]] fc 0 0
      r.1 ++ enumerateFlowsFrom maxDepth adj lookup es r.2

/-- Stage 5 `enumerate_flows`. `entryIter` is the order in which Python
happens to iterate the `set` of entry-point ids — a hash-dependent
order the source does not fix. -/
def enumerateFlows (maxDepth : Nat) (g : GraphData) (entryIter : List String) : List Flow :=
  if g.nodes.isEmpty || g.entryPoints.isEmpty then []
  else enumerateFlowsFrom maxDepth (adjacencyOf g.edges) (nodesById g.nodes) entryIter 0

/-- Invariant carried by every Stage 5 stack entry relevant to cycle
avoidance: the path has no duplicates and the visited set holds exactly
the path's members. -/
def PathInv (s : SearchState) : Prop :=
  s.path.Nodup ∧ ∀ x, x ∈ s.visited ↔ x ∈ s.path

/-- Invariant carried by every Stage 5 stack entry relevant to
termination bookkeeping: the current node is the last path entry and is
present in the node map. -/
def LastInv (lookup : String → Option GNode) (s : SearchState) : Prop :=
  s.path.getLast? = some s.current ∧ (lookup s.current).isSome

/-- Entry summary of a test window (Stage 6). -/
structure WindowEntryPoint where
  integrationId : String
  unit : String
  callable : String
  target : String
  deriving Repr, DecidableEq

/-- Exit summary of a test window (Stage 6); `isBoundary` is
`exit_node.boundary is not None`. -/
structure WindowExitPoint where
  integrationId : String
  unit : String
  callable : String
  target : String
  isBoundary : Bool
  deriving Repr, DecidableEq

/-- One sliding test window (Stage 6 `TestWindow`). -/
structure TestWindow where
  windowId : String
  sourceFlowId : String
  startPosition : Nat
  length : Nat
  integrationIds : List String
  entryPoint : WindowEntryPoint
  exitPoint : WindowExitPoint
  description : String
  sequence : List GNode
  deriving Repr, DecidableEq

/-- Stage 6 window size for a flow:
`min(max_length or 999999, flow_length)` (`999999` is the source's
stand-in for an unset maximum). -/
def windowSize (maxLength : Option Nat) (flowLength : Nat) : Nat :=
  min (match maxLength with | none => 999999 | some m => m) flowLength

/-- Placeholder node: Python indexes `window_sequence[0]`/`[-1]`, which
cannot fail for the slices Stage 6 builds under its validated
configuration (`min_window_length ≥ 2`); the model returns this
placeholder on an empty slice instead of raising. -/
def placeholderGNode : GNode :=
  ⟨"", "", "", "", "", ⟨none, none⟩, none, false, none⟩

/-- One window of Stage 6 `generate_windows`: the `num`-th window
overall, covering the slice `[k, k + ws)` of the flow's sequence. -/
def mkWindow (f : Flow) (num k ws : Nat) : TestWindow :=
  let windowSequence := (f.sequence.drop k).take ws
  let entryNode := windowSequence.headD placeholderGNode
  let exitNode := windowSequence.getLastD placeholderGNode
  { windowId := "WINDOW_" ++ padZero 5 (natToString num),
    sourceFlowId := f.flowId,
    startPosition := k,
    length := windowSequence.length,
    integrationIds := windowSequence.map (fun n => n.id),
    entryPoint := ⟨entryNode.id, entryNode.sourceUnit, entryNode.sourceCallableName,
      entryNode.target⟩,
    exitPoint := ⟨exitNode.id, exitNode.sourceUnit, exitNode.sourceCallableName,
      exitNode.target, exitNode.boundary.isSome⟩,
    description := joinSep " → " (windowSequence.map (fun n => n.target)),
    sequence := windowSequence }

/-- The windows one flow contributes in Stage 6 (lines 74-132), plus
the updated global window counter: nothing when the flow is shorter
than `min_window_length`; otherwise one window per start offset
`0 .. flow_length - window_size`, sliding by one. -/
def windowsForFlow (minLength : Nat) (maxLength : Option Nat) (counter : Nat) (f : Flow) :
    List TestWindow × Nat :=
  let flowLength := f.sequence.length
  if flowLength < minLength then ([], counter)
  else
    let ws := windowSize maxLength flowLength
    ((List.range (flowLength - ws + 1)).map (fun k => mkWindow f (counter + k + 1) k ws),
      counter + (flowLength - ws + 1))

/-- Stage 6 `generate_windows` over the flow list, threading the global
window counter. -/
def generateWindows (minLength : Nat) (maxLength : Option Nat) :
    List Flow → Nat → List TestWindow
  | [], _ => []
  | f :: fs, counter =>
    let r := windowsForFlow minLength maxLength counter f
    r.1 ++ generateWindows minLength maxLength fs r.2

/-- A callable reference attached to a pattern (Stage 4). -/
structure CallableReference where
  integrationId : String
  unitName : String
  callableName : String
  fullyQualified : String
  deriving Repr, DecidableEq

/-- A recorded cycle (Stage 4 `CyclePattern`). -/
structure CyclePattern where
  pattern : List String
  length : Nat
  occurrences : Nat
  callables : List CallableReference
  deriving Repr, DecidableEq

/-- A counted subsequence (Stage 4 `SubsequencePattern`). -/
structure SubsequencePattern where
  pattern : List String
  length : Nat
  occurrences : Nat
  callables : List CallableReference
  deriving Repr, DecidableEq

/-- The projection `o.getD ""`; composed with `pyOr` this models Python
`optional or fallback` chains where both `None` and `""` are falsy. -/
def optStr (o : Option String) : String := o.getD ""

/-- The callable reference Stage 4 builds for one node
(`unit_name or source_unit or 'unknown'`, and
`callable_name or target or 'unknown'`). -/
def mkCallableRef (nid : String) (n : GNode) : CallableReference :=
  let unitName := pyOr (optStr n.targetResolved.unitName) (pyOr n.sourceUnit "unknown")
  let callableName := pyOr (optStr n.targetResolved.callableName) (pyOr n.target "unknown")
  ⟨nid, unitName, callableName, unitName ++ "::" ++ callableName⟩

/-- Callable references for a list of ids, skipping ids the node map
does not know (`if not node: continue`). -/
def callableRefsOf (lookup : String → Option GNode) (ids : List String) :
    List CallableReference :=
  ids.filterMap (fun nid => (lookup nid).map (mkCallableRef nid))

/-- Stage 4 `build_cycle_info`: a fresh cycle record with occurrence
count 1. -/
def buildCycleInfo (cyclePath : List String) (lookup : String → Option GNode) : CyclePattern :=
  ⟨cyclePath, cyclePath.length, 1, callableRefsOf lookup cyclePath⟩

/-- Stage 4 `is_repeating_cycle` (lines 293-334): at least three nodes,
first node equals last node, and every consecutive pair is in the
adjacency map. `fullPath` and `returningTo` are parameters the source
accepts but never reads. -/
def isRepeatingCycle (cyclePath _fullPath : List String) (_returningTo : String)
    (adj : String → List String) : Bool :=
  if cyclePath.length < 3 then false
  else if cyclePath.head? ≠ cyclePath.getLast? then false
  else (cyclePath.zip cyclePath.tail).all (fun ab => decide (ab.2 ∈ adj ab.1))

/-- Stage 4 `cycle_already_recorded` combined with the conditional
append of `analyze_patterns`: on the first recorded cycle with an
identical node sequence the occurrence counter is incremented and
nothing is appended; otherwise the new record is appended at the
end. -/
def recordCycle (info : CyclePattern) : List CyclePattern → List CyclePattern
  | [] => [info]
  | r :: rs =>
    if r.pattern = info.pattern then { r with occurrences := r.occurrences + 1 } :: rs
    else r :: recordCycle info rs

/-- Dict lookup in the `visited_indices` position map. -/
def lookupPositions (v : List (String × List Nat)) (k : String) : Option (List Nat) :=
  (v.find? (fun kv => kv.1 == k)).map (fun kv => kv.2)

/-- The Python statement `new_visited.setdefault(k, []).append(pos)` on a copy of the
position map. -/
def updatePositions (v : List (String × List Nat)) (k : String) (pos : Nat) :
    List (String × List Nat) :=
  if v.any (fun kv => kv.1 == k) then
    v.map (fun kv => if kv.1 == k then (kv.1, kv.2 ++ [pos]) else kv)
  else v ++ [(k, [pos])]

/-- One entry of the Stage 4 DFS stack:
`(current_id, path_so_far, visited_indices)`. -/
structure PatState where
  current : String
  path : List String
  visited : List (String × List Nat)
  deriving Repr, DecidableEq

/-- The inner `for prev_idx in previous_positions` loop of
`analyze_patterns`: the first previous position whose reconstructed
sub-path passes `is_repeating_cycle` yields the candidate cycle. -/
def firstValidCycle (path : List String) (neighborId : String) (prevs : List Nat)
    (adj : String → List String) : Option (List String) :=
  prevs.findSome? (fun prev =>
    let cyclePath := path.drop prev ++ [neighborId]
    if isRepeatingCycle cyclePath path neighborId adj then some cyclePath else none)

/-- Whether visiting `neighborId` from `path` closes a confirmed cycle,
and which one. -/
def confirmedCycle (adj : String → List String) (path : List String)
    (visited : List (String × List Nat)) (neighborId : String) : Option (List String) :=
  match lookupPositions visited neighborId with
  | some prevs => firstValidCycle path neighborId prevs adj
  | none => none

/-- The neighbor loop of one `analyze_patterns` step (lines 192-244):
an already-visited neighbor whose reconstruction is a confirmed cycle
records it and breaks out of the loop — neighbors after it are neither
examined nor pushed; an already-visited neighbor without a confirmed
cycle is skipped; an unvisited neighbor is pushed. Returns the updated
cycle records, the pushed states in neighbor order, and the
`cycle_found` flag. -/
def processNeighbors (adj : String → List String) (lookup : String → Option GNode)
    (path : List String) (visited : List (String × List Nat)) :
    List CyclePattern → List String → List CyclePattern × List PatState × Bool
  | patterns, [] => (patterns, [], false)
  | patterns, n :: rest =>
    match lookupPositions visited n with
    | some prevs =>
      match firstValidCycle path n prevs adj with
      | some cyclePath =>
        (recordCycle (buildCycleInfo cyclePath lookup) patterns, [], true)
      | none => processNeighbors adj lookup path visited patterns rest
    | none =>
      let st := PatState.mk n (path ++ [n]) (updatePositions visited n path.length)
      let r := processNeighbors adj lookup path visited patterns rest
      (r.1, st :: r.2.1, r.2.2)

/-- Increment of an insertion-ordered counter (Python
`Counter[key] += 1`). -/
def counterInc {α : Type} [BEq α] (c : List (α × Nat)) (k : α) : List (α × Nat) :=
  if c.any (fun kv => kv.1 == k) then
    c.map (fun kv => if kv.1 == k then (kv.1, kv.2 + 1) else kv)
  else c ++ [(k, 1)]

/-- Stage 4 `extract_subsequences`: count every contiguous window of
size 2 through 7, stopping at the first size exceeding the path
length. -/
def extractSubsequences (path : List String) (counts : List (List String × Nat)) :
    List (List String × Nat) :=
  (([2, 3, 4, 5, 6, 7].takeWhile (fun ws => ws ≤ path.length))).foldl
    (fun c ws => (List.range (path.length - ws + 1)).foldl
      (fun c2 i => counterInc c2 ((path.drop i).take ws)) c)
    counts

/-- Mutable analysis state threaded through the Stage 4 traversal. -/
structure PatAccum where
  subseqCounts : List (List String × Nat)
  cycles : List CyclePattern
  flowLengths : List Nat
  flowsAnalyzed : Nat
  longFlows : Nat
  deriving Repr, DecidableEq

/-- Bookkeeping when a Stage 4 branch completes (terminal node,
excluded node or depth cap): count the flow and, for long flows, mine
its subsequences. -/
def recordFlowPat (longThresh : Nat) (acc : PatAccum) (path : List String) : PatAccum :=
  let len := path.length
  { acc with
    flowsAnalyzed := acc.flowsAnalyzed + 1,
    flowLengths := acc.flowLengths ++ [len],
    longFlows := if longThresh ≤ len then acc.longFlows + 1 else acc.longFlows,
    subseqCounts :=
      if longThresh ≤ len then extractSubsequences path acc.subseqCounts
      else acc.subseqCounts }

/-- The Stage 4 `while stack:` loop (lines 137-244), checked per
iteration in source order: terminal node, then excluded node, then the
depth cap — each completes the flow — else the neighbor loop. The
source loop has no iteration cap; `fuel` makes the recursion
structural, and every theorem below holds for every fuel value. -/
def patLoop (maxDepth longThresh : Nat) (adj : String → List String)
    (lookup : String → Option GNode) (terminalIds : List String) :
    Nat → List PatState → PatAccum → PatAccum
  | _, [], acc => acc
  | 0, _ :: _, acc => acc
  | fuel + 1, s :: rest, acc =>
    if s.current ∈ terminalIds then
      patLoop maxDepth longThresh adj lookup terminalIds fuel rest
        (recordFlowPat longThresh acc s.path)
    else if ((lookup s.current).map (fun n => n.excludeFromFlows)).getD false then
      patLoop maxDepth longThresh adj lookup terminalIds fuel rest
        (recordFlowPat longThresh acc s.path)
    else if maxDepth ≤ s.path.length then
      patLoop maxDepth longThresh adj lookup terminalIds fuel rest
        (recordFlowPat longThresh acc s.path)
    else
      let r := processNeighbors adj lookup s.path s.visited acc.cycles (adj s.current)
      patLoop maxDepth longThresh adj lookup terminalIds fuel
        (r.2.1.reverse ++ rest) { acc with cycles := r.1 }

/-- The Stage 4 outer loop over entry points (lines 122-135): skip
entries absent from the node map, else run the DFS with the initial
stack `[(entry, [entry], {entry: [0]})]`. -/
def analyzeFrom (maxDepth longThresh : Nat) (adj : String → List String)
    (lookup : String → Option GNode) (terminalIds : List String) (fuel : Nat) :
    List String → PatAccum → PatAccum
  | [], acc => acc
  | e :: es, acc =>
    if (lookup e).isNone then
      analyzeFrom maxDepth longThresh adj lookup terminalIds fuel es acc
    else
      analyzeFrom maxDepth longThresh adj lookup terminalIds fuel es
        (patLoop maxDepth longThresh adj lookup terminalIds fuel
          [PatState.mk e [e] [(e, [0])]] acc)

/-- Stable insertion into a descending-by-key list: the inserted
element goes before every element with a key not exceeding its own. -/
def insertDescBy {α : Type} (key : α → Nat) (a : α) : List α → List α
  | [] => [a]
  | x :: xs => if key x ≤ key a then a :: x :: xs else x :: insertDescBy key a xs

/-- Stable sort, descending by key — the semantics of Python
`sorted(..., key=..., reverse=True)` (and of `Counter.most_common`). -/
def sortDescBy {α : Type} (key : α → Nat) : List α → List α
  | [] => []
  | x :: xs => insertDescBy key x (sortDescBy key xs)

/-- Stage 4 summary statistics; Python computes `average_flow_length`
as a float division, modelled here as the exact rational. -/
structure PatternSummary where
  totalFlowsAnalyzed : Nat
  longFlows : Nat
  longFlowThreshold : Nat
  uniqueSubsequences : Nat
  cyclesDetected : Nat
  averageFlowLength : ℚ
  maxFlowLength : Nat
  minFlowLength : Nat
  deriving Repr, DecidableEq

/-- The Stage 4 output document. -/
structure PatternAnalysisResult where
  subsequences : List SubsequencePattern
  cycles : List CyclePattern
  flowLengthDistribution : List (Nat × Nat)
  summary : PatternSummary
  deriving Repr, DecidableEq

/-- Stage 4 `build_analysis_results`: subsequences by descending count
(`most_common`), cycles by descending occurrences (stable), the
flow-length histogram, and the summary statistics. -/
def buildAnalysisResults (counts : List (List String × Nat))
    (cyclePatterns : List CyclePattern) (flowLengths : List Nat)
    (lookup : String → Option GNode) (flowsAnalyzed longFlows longThresh : Nat) :
    PatternAnalysisResult :=
  let subsequences := (sortDescBy (fun kv => kv.2) counts).map (fun kv =>
    SubsequencePattern.mk kv.1 kv.1.length kv.2 (callableRefsOf lookup kv.1))
  let sortedCycles := sortDescBy (fun c => c.occurrences) cyclePatterns
  { subsequences := subsequences,
    cycles := sortedCycles,
    flowLengthDistribution := flowLengths.foldl (fun c len => counterInc c len) [],
    summary :=
      { totalFlowsAnalyzed := flowsAnalyzed,
        longFlows := longFlows,
        longFlowThreshold := longThresh,
        uniqueSubsequences := subsequences.length,
        cyclesDetected := sortedCycles.length,
        averageFlowLength :=
          if flowLengths.isEmpty then 0
          else (flowLengths.sum : ℚ) / (flowLengths.length : ℚ),
        maxFlowLength := flowLengths.foldr max 0,
        minFlowLength := match flowLengths with | [] => 0 | x :: xs => xs.foldl min x } }

/-- Stage 4 `analyze_patterns`. As in Stage 5, `entryIter` is the
hash-dependent iteration order of the Python `set` of entry ids, and
`fuel` bounds the uncapped source loop. -/
def analyzePatterns (maxDepth longThresh : Nat) (g : GraphData) (entryIter : List String)
    (fuel : Nat) : PatternAnalysisResult :=
  if g.nodes.isEmpty || g.entryPoints.isEmpty then
    ⟨[], [], [], ⟨0, 0, 0, 0, 0, 0, 0, 0⟩⟩
  else
    let acc := analyzeFrom maxDepth longThresh (adjacencyOf g.edges) (nodesById g.nodes)
      g.terminalNodes fuel entryIter ⟨[], [], [], 0, 0⟩
    buildAnalysisResults acc.subseqCounts acc.cycles acc.flowLengths (nodesById g.nodes)
      acc.flowsAnalyzed acc.longFlows longThresh

/-- Validity of a recorded cycle's node sequence with respect to the
graph's edge list: at least three entries, first equals last, every
consecutive pair is a real edge. -/
def ValidCyclePath (edges : List Edge) (p : List String) : Prop :=
  3 ≤ p.length ∧ p.head? = p.getLast? ∧
  ∀ ab ∈ p.zip p.tail, ∃ e ∈ edges, e.from_ = ab.1 ∧ e.to_ = ab.2

/-- Invariant maintained on the recorded-cycle list: every record is a
valid cycle and the patterns are pairwise distinct. -/
def CycleInv (edges : List Edge) (ps : List CyclePattern) : Prop :=
  (∀ c ∈ ps, ValidCyclePath edges c.pattern) ∧ (ps.map (fun c => c.pattern)).Nodup

/-- The stored resolution of a Stage 3 node is exactly the outcome of
`resolve_target` on its raw target. -/
lemma resolvePoint_resolution (isExcluded : String → String → Bool)
    (idx : CallableIndex) (p : Point) :
    (resolvePoint isExcluded idx p).resolution = resolveTarget p.target idx := by
  unfold resolvePoint
  split
  · rename_i un cid nm qn cn heq
    rw [heq]
    split <;> rfl
  · rfl

/-- The three id lists built by the classification loop are jointly a
permutation of the ids of the classified points. -/
lemma classifyLoop_perm (all : List Point) (ps : List Point) :
    ((classifyLoop all ps).1 ++ (classifyLoop all ps).2.1 ++ (classifyLoop all ps).2.2).Perm
      (ps.map (fun p => p.id)) := by
  induction ps with
  | nil => simp [classifyLoop]
  | cons p ps ih =>
    rcases h : classifyLoop all ps with ⟨e, m, t⟩
    rw [h] at ih
    simp only [classifyLoop, h, List.map_cons]
    cases hb : isBoundaryId all p.id <;>
      cases hin : hasIncomingKey all p.sourceCallableId <;>
        cases hout : hasOutgoingKey all p.target <;>
          simp only [hb, hin, hout, Bool.not_true, Bool.not_false, if_true, if_false] <;>
          first
            | exact ih.cons p.id
            | exact (List.perm_middle.append_right t).trans (ih.cons p.id)
            | exact List.perm_middle.trans (ih.cons p.id)

/-- C7: `classify_integration_points` assigns every input point to
exactly one of entry / intermediate / terminal: the concatenation of the
three output id lists is a permutation of the input id list (no
omission, no double assignment), every input id appears in one of the
three lists, and when input ids are unique the three lists are pairwise
disjoint. -/
theorem classify_partitions_points (points : List Point) :
    ((classifyIntegrationPoints points).entryPoints ++
      (classifyIntegrationPoints points).intermediateSeams ++
      (classifyIntegrationPoints points).terminalNodes).Perm
        (points.map (fun p => p.id)) ∧
    (∀ i, i ∈ points.map (fun p => p.id) ↔
      i ∈ (classifyIntegrationPoints points).entryPoints ∨
      i ∈ (classifyIntegrationPoints points).intermediateSeams ∨
      i ∈ (classifyIntegrationPoints points).terminalNodes) ∧
    ((points.map (fun p => p.id)).Nodup →
      (classifyIntegrationPoints points).entryPoints.Disjoint
        (classifyIntegrationPoints points).intermediateSeams ∧
      (classifyIntegrationPoints points).entryPoints.Disjoint
        (classifyIntegrationPoints points).terminalNodes ∧
      (classifyIntegrationPoints points).intermediateSeams.Disjoint
        (classifyIntegrationPoints points).terminalNodes) := by
  have hperm := classifyLoop_perm points points
  have hcl : classifyIntegrationPoints points =
      { entryPoints := (classifyLoop points points).1,
        intermediateSeams := (classifyLoop points points).2.1,
        terminalNodes := (classifyLoop points points).2.2 } := by
    unfold classifyIntegrationPoints
    rcases classifyLoop points points with ⟨e, m, t⟩
    rfl
  rw [hcl]
  refine ⟨hperm, ?_, ?_⟩
  · intro i
    have := hperm.mem_iff (a := i)
    simp only [List.mem_append] at this
    rw [← this]
    tauto
  · intro hnd
    have hnd2 : ((classifyLoop points points).1 ++ (classifyLoop points points).2.1 ++
        (classifyLoop points points).2.2).Nodup := hperm.nodup_iff.mpr hnd
    rw [List.nodup_append] at hnd2
    obtain ⟨h12, h3, hdis⟩ := hnd2
    rw [List.nodup_append] at h12
    obtain ⟨h1, h2, d12⟩ := h12
    refine ⟨d12, ?_, ?_⟩
    · intro a ha hb
      exact hdis (List.mem_append_left _ ha) hb
    · intro a ha hb
      exact hdis (List.mem_append_right _ ha) hb

/-- Witness for C7 at a concrete input: one boundary point, one entry
point, one point calling the other's callable. -/
theorem classify_partitions_points_witness :
    (((classifyIntegrationPoints
        [⟨"I1", "u", "f", "g", false⟩, ⟨"I2", "u", "g", "sys.io", true⟩]).entryPoints ++
      (classifyIntegrationPoints
        [⟨"I1", "u", "f", "g", false⟩, ⟨"I2", "u", "g", "sys.io", true⟩]).intermediateSeams ++
      (classifyIntegrationPoints
        [⟨"I1", "u", "f", "g", false⟩, ⟨"I2", "u", "g", "sys.io", true⟩]).terminalNodes).Perm
        ["I1", "I2"]) ∧
    (classifyIntegrationPoints
        [⟨"I1", "u", "f", "g", false⟩, ⟨"I2", "u", "g", "sys.io", true⟩]).entryPoints.Disjoint
      (classifyIntegrationPoints
        [⟨"I1", "u", "f", "g", false⟩, ⟨"I2", "u", "g", "sys.io", true⟩]).intermediateSeams := by
  have h := classify_partitions_points
    [⟨"I1", "u", "f", "g", false⟩, ⟨"I2", "u", "g", "sys.io", true⟩]
  exact ⟨h.1, (h.2.2 (by decide)).1⟩

/-- C2 (refuting evaluation): the Stage 2 classifier keys its
incoming-relationship map by raw target text and tests source callable
ids against it. Here point I1's raw target `"helper"` resolves to the
identity `(u, C000F002)`, which is exactly point I2's source callable
identity, yet I2 is classified as an entry point ("no incoming"): the
check misses the match because the raw text `"helper"` differs from the
callable id `"C000F002"`. -/
theorem classifier_compares_raw_text_not_identity :
    resolveTarget "helper" [("helper", [⟨"u", "C000F002", "helper", "u::helper"⟩])] =
      .resolved "u" "C000F002" "helper" "helper" "helper" ∧
    (⟨"I2", "u", "C000F002", "ext.thing", false⟩ : Point).sourceUnit = "u" ∧
    (⟨"I2", "u", "C000F002", "ext.thing", false⟩ : Point).sourceCallableId = "C000F002" ∧
    "I2" ∈ (classifyIntegrationPoints
      [⟨"I1", "u", "C000F001", "helper", false⟩,
       ⟨"I2", "u", "C000F002", "ext.thing", false⟩]).entryPoints := by
  refine ⟨by decide, rfl, rfl, by decide⟩

/-- C3 (refuting evaluation): the Stage 3 `resolve_target` is a single
dictionary lookup with no caller context. First conjunct: a bare name
indexed under two units is reported ambiguous even though exactly one
candidate lies in the calling unit `A` (the cascade's same-unit
narrowing is absent — and the function has no caller parameter at all).
Second conjunct: a target `u.f` written as the calling unit `u` plus
local path `f` is unresolved even though `f` is indexed (the cascade's
unit-prefix-stripping step 4 is absent). -/
theorem resolve_target_has_no_cascade :
    resolveTarget "helper"
      [("helper", [⟨"A", "C1", "helper", "A::helper"⟩, ⟨"B", "C2", "helper", "B::helper"⟩])] =
      .ambiguous "helper" ["A::helper", "B::helper"] ∧
    resolveTarget "u.f" [("f", [⟨"u", "C1", "f", "u::f"⟩])] = .unresolved := by
  exact ⟨by decide, by decide⟩

/-- Membership in an accumulating `foldl` over list appends. -/
lemma mem_foldl_append {α β : Type} (f : α → List β) (ps : List α) (acc : List β) (x : β) :
    x ∈ ps.foldl (fun a p => a ++ f p) acc ↔ x ∈ acc ∨ ∃ p ∈ ps, x ∈ f p := by
  induction ps generalizing acc with
  | nil => simp
  | cons p ps ih =>
    simp only [List.foldl_cons, ih, List.mem_append, List.mem_cons]
    constructor
    · rintro ((h | h) | ⟨q, hq, hx⟩)
      · exact Or.inl h
      · exact Or.inr ⟨p, Or.inl rfl, h⟩
      · exact Or.inr ⟨q, Or.inr hq, hx⟩
    · rintro (h | ⟨q, (rfl | hq), hx⟩)
      · exact Or.inl (Or.inl h)
      · exact Or.inl (Or.inr hx)
      · exact Or.inr ⟨q, hq, hx⟩

/-- Membership in a `integrations_by_source_callable` bucket. -/
lemma mem_bySourceCallable (points : List Point) (key : String × String) (tid : String) :
    tid ∈ bySourceCallable points key ↔
      ∃ q ∈ points, q.sourceUnit ≠ "" ∧ q.sourceCallableId ≠ "" ∧
        q.sourceUnit = key.1 ∧ q.sourceCallableId = key.2 ∧ q.id = tid := by
  simp only [bySourceCallable, List.mem_map, List.mem_filter]
  constructor
  · rintro ⟨q, ⟨hq, hcond⟩, rfl⟩
    simp only [Bool.and_eq_true, decide_eq_true_eq, beq_iff_eq] at hcond
    exact ⟨q, hq, hcond.1.1.1, hcond.1.1.2, hcond.1.2, hcond.2, rfl⟩
  · rintro ⟨q, hq, h1, h2, h3, h4, rfl⟩
    refine ⟨q, ⟨hq, ?_⟩, rfl⟩
    simp only [Bool.and_eq_true, decide_eq_true_eq, beq_iff_eq]
    exact ⟨⟨⟨h1, h2⟩, h3⟩, h4⟩

/-- Unfolding of `edgesOfPoint` on a resolved target. -/
lemma edgesOfPoint_eq_resolved (points : List Point) (idx : CallableIndex) (p : Point)
    {un cid nm qn cn : String}
    (h : resolveTarget p.target idx = .resolved un cid nm qn cn) :
    edgesOfPoint points idx p =
      if un ≠ "" ∧ cid ≠ "" then
        (bySourceCallable points (un, cid)).map
          (fun tid => { from_ := p.id, to_ := tid, reason := edgeReason p.id p.target tid })
      else [] := by
  unfold edgesOfPoint
  rw [h]

/-- Unfolding of `edgesOfPoint` on an ambiguous target. -/
lemma edgesOfPoint_eq_nil_ambiguous (points : List Point) (idx : CallableIndex) (p : Point)
    {nm : String} {ms : List String}
    (h : resolveTarget p.target idx = .ambiguous nm ms) :
    edgesOfPoint points idx p = [] := by
  unfold edgesOfPoint
  rw [h]

/-- Unfolding of `edgesOfPoint` on an unresolved target. -/
lemma edgesOfPoint_eq_nil_unresolved (points : List Point) (idx : CallableIndex) (p : Point)
    (h : resolveTarget p.target idx = .unresolved) :
    edgesOfPoint points idx p = [] := by
  unfold edgesOfPoint
  rw [h]

/-- Membership among the edges one point contributes. -/
lemma mem_edgesOfPoint (points : List Point) (idx : CallableIndex) (p : Point) (e : Edge) :
    e ∈ edgesOfPoint points idx p ↔
      ∃ un cid nm qn cn, resolveTarget p.target idx = .resolved un cid nm qn cn ∧
        un ≠ "" ∧ cid ≠ "" ∧
        ∃ tid ∈ bySourceCallable points (un, cid),
          e = { from_ := p.id, to_ := tid, reason := edgeReason p.id p.target tid } := by
  cases hres : resolveTarget p.target idx with
  | resolved un cid nm qn cn =>
    rw [edgesOfPoint_eq_resolved points idx p hres]
    by_cases hc : un ≠ "" ∧ cid ≠ ""
    · rw [if_pos hc]
      simp only [List.mem_map]
      constructor
      · rintro ⟨tid, htid, rfl⟩
        exact ⟨un, cid, nm, qn, cn, rfl, hc.1, hc.2, tid, htid, rfl⟩
      · rintro ⟨un', cid', nm', qn', cn', heq, h1, h2, tid, htid, rfl⟩
        cases heq
        exact ⟨tid, htid, rfl⟩
    · rw [if_neg hc]
      simp only [List.not_mem_nil, false_iff]
      rintro ⟨un', cid', nm', qn', cn', heq, h1, h2, _, _, _⟩
      cases heq
      exact hc ⟨h1, h2⟩
  | ambiguous nm ms =>
    rw [edgesOfPoint_eq_nil_ambiguous points idx p hres]
    simp only [List.not_mem_nil, false_iff]
    rintro ⟨_, _, _, _, _, heq, _⟩
    cases heq
  | unresolved =>
    rw [edgesOfPoint_eq_nil_unresolved points idx p hres]
    simp only [List.not_mem_nil, false_iff]
    rintro ⟨_, _, _, _, _, heq, _⟩
    cases heq

/-- Membership in the Stage 3 edge set. -/
lemma mem_graph_edges (isExcluded : String → String → Bool) (points : List Point)
    (idx : CallableIndex) (e : Edge) :
    e ∈ (buildIntegrationGraph isExcluded points idx).edges ↔
      ∃ p ∈ points, e ∈ edgesOfPoint points idx p := by
  unfold buildIntegrationGraph
  simp only
  rw [mem_foldl_append]
  simp

/-- Points with equal ids are equal when the id list has no duplicates. -/
lemma point_eq_of_id_eq {points : List Point} (hids : (points.map (fun p => p.id)).Nodup)
    {p q : Point} (hp : p ∈ points) (hq : q ∈ points) (h : p.id = q.id) : p = q := by
  exact List.inj_on_of_nodup_map hids hp hq h

/-- C1: every edge built by `build_integration_graph` goes out of a
point whose stored target resolution is `resolved`, and the resolved
`(unit, callable id)` pair equals the target point's
`(sourceUnit, sourceCallableId)` exactly; consequently a point whose
resolution is ambiguous or unresolved is the source of no edge.
(Input point ids are assumed unique, as produced by Stage 1.) -/
theorem graph_edges_match_resolved_identity (isExcluded : String → String → Bool)
    (points : List Point) (idx : CallableIndex)
    (hids : (points.map (fun p => p.id)).Nodup) :
    (∀ p ∈ points, (resolvePoint isExcluded idx p).resolution = resolveTarget p.target idx) ∧
    (∀ e ∈ (buildIntegrationGraph isExcluded points idx).edges,
      ∀ u ∈ points, u.id = e.from_ → ∀ v ∈ points, v.id = e.to_ →
        ∃ nm qn cn, resolveTarget u.target idx =
          .resolved v.sourceUnit v.sourceCallableId nm qn cn) ∧
    (∀ u ∈ points, (resolveTarget u.target idx).isResolved = false →
      ∀ e ∈ (buildIntegrationGraph isExcluded points idx).edges, e.from_ ≠ u.id) := by
  refine ⟨fun p _ => resolvePoint_resolution isExcluded idx p, ?_, ?_⟩
  · intro e he u hu huid v hv hvid
    rw [mem_graph_edges] at he
    obtain ⟨p, hp, hpe⟩ := he
    rw [mem_edgesOfPoint] at hpe
    obtain ⟨un, cid, nm, qn, cn, hres, hun, hcid, tid, htid, rfl⟩ := hpe
    have hup : u = p := point_eq_of_id_eq hids hu hp huid
    rw [mem_bySourceCallable] at htid
    obtain ⟨q, hq, _, _, hq1, hq2, hqid⟩ := htid
    have hvq : v = q := point_eq_of_id_eq hids hv hq (hvid.trans hqid.symm)
    subst hup
    refine ⟨nm, qn, cn, ?_⟩
    have h1 : q.sourceUnit = un := hq1
    have h2 : q.sourceCallableId = cid := hq2
    rw [hvq, h1, h2]
    exact hres
  · intro u hu hures e he
    rw [mem_graph_edges] at he
    obtain ⟨p, hp, hpe⟩ := he
    rw [mem_edgesOfPoint] at hpe
    obtain ⟨un, cid, nm, qn, cn, hres, _, _, tid, _, rfl⟩ := hpe
    intro hfrom
    have : p = u := point_eq_of_id_eq hids hp hu hfrom
    subst this
    rw [hres] at hures
    simp [Resolution.isResolved] at hures

/-- Witness for C1 at a concrete input: `IA`'s target `foo` resolves to
`(u, CB)`, the source identity of `IB`, producing the single edge
`IA → IB`. -/
theorem graph_edges_match_resolved_identity_witness :
    ({ from_ := "IA", to_ := "IB", reason := edgeReason "IA" "foo" "IB" } : Edge) ∈
      (buildIntegrationGraph (fun _ _ => false)
        [⟨"IA", "uA", "CA", "foo", false⟩, ⟨"IB", "u", "CB", "", false⟩]
        [("foo", [⟨"u", "CB", "foo", "u::foo"⟩])]).edges ∧
    (∃ nm qn cn,
      resolveTarget "foo" [("foo", [⟨"u", "CB", "foo", "u::foo"⟩])] =
        .resolved "u" "CB" nm qn cn) := by
  have h := graph_edges_match_resolved_identity (fun _ _ => false)
    [⟨"IA", "uA", "CA", "foo", false⟩, ⟨"IB", "u", "CB", "", false⟩]
    [("foo", [⟨"u", "CB", "foo", "u::foo"⟩])] (by decide)
  refine ⟨by decide, ?_⟩
  exact h.2.1 { from_ := "IA", to_ := "IB", reason := edgeReason "IA" "foo" "IB" } (by decide)
    ⟨"IA", "uA", "CA", "foo", false⟩ (by decide) rfl
    ⟨"IB", "u", "CB", "", false⟩ (by decide) rfl

/-- Auxiliary characterisation of the node-map fold. -/
lemma nodesById_foldl_id (ns : List GNode) (i : String) (acc : Option GNode)
    (hacc : ∀ m, acc = some m → m.id = i) :
    ∀ n, ns.foldl (fun acc n => if n.id = i then some n else acc) acc = some n → n.id = i := by
  induction ns generalizing acc with
  | nil => exact hacc
  | cons x xs ih =>
    intro n h
    simp only [List.foldl_cons] at h
    by_cases hx : x.id = i
    · refine ih _ (fun m hm => ?_) n h
      rw [if_pos hx] at hm
      cases hm
      exact hx
    · refine ih _ (fun m hm => ?_) n h
      rw [if_neg hx] at hm
      exact hacc m hm

/-- A node found in the node map carries the looked-up id. -/
lemma nodesById_eq_some {ns : List GNode} {i : String} {n : GNode}
    (h : nodesById ns i = some n) : n.id = i :=
  nodesById_foldl_id ns i none (by intro m hm; cases hm) n h

/-- The node map finds ids that some node carries. -/
lemma nodesById_isSome (ns : List GNode) (i : String) :
    (nodesById ns i).isSome ↔ ∃ m ∈ ns, m.id = i := by
  unfold nodesById
  suffices h : ∀ acc : Option GNode,
      (ns.foldl (fun acc n => if n.id = i then some n else acc) acc).isSome ↔
        acc.isSome ∨ ∃ m ∈ ns, m.id = i by
    rw [h none]
    simp
  intro acc
  induction ns generalizing acc with
  | nil => simp
  | cons x xs ih =>
    simp only [List.foldl_cons, ih, List.mem_cons]
    by_cases hx : x.id = i
    · rw [if_pos hx]
      constructor
      · intro _
        exact Or.inr ⟨x, Or.inl rfl, hx⟩
      · intro _
        left
        rfl
    · rw [if_neg hx]
      constructor
      · rintro (h | ⟨m, hm, hmi⟩)
        · exact Or.inl h
        · exact Or.inr ⟨m, Or.inr hm, hmi⟩
      · rintro (h | ⟨m, (rfl | hm), hmi⟩)
        · exact Or.inl h
        · exact absurd hmi hx
        · exact Or.inr ⟨m, hm, hmi⟩

/-- The ids of a looked-up flow sequence are the path entries that the
node map recognises. -/
lemma sequence_map_id (lookup : String → Option GNode)
    (hl : ∀ i n, lookup i = some n → n.id = i) (path : List String) :
    ((path.filterMap lookup).map (fun n => n.id)) =
      path.filter (fun i => (lookup i).isSome) := by
  induction path with
  | nil => rfl
  | cons x xs ih =>
    cases hx : lookup x with
    | none => simp [List.filterMap_cons, hx, ih, List.filter_cons]
    | some n => simp [List.filterMap_cons, hx, List.filter_cons, hl x n hx, ih]

/-- The neighbor pushes of one DFS step preserve `PathInv`. -/
lemma pathInv_push {s : SearchState} (hs : PathInv s) {x : String} (hx : x ∉ s.visited) :
    PathInv (SearchState.mk x (s.path ++ [x]) (x :: s.visited)) := by
  obtain ⟨hnd, hvis⟩ := hs
  have hxp : x ∉ s.path := fun hc => hx ((hvis x).mpr hc)
  constructor
  · rw [List.nodup_append]
    refine ⟨hnd, List.nodup_singleton x, ?_⟩
    intro a ha hb
    rw [List.mem_singleton] at hb
    subst hb
    exact hxp ha
  · intro y
    simp only [List.mem_cons, List.mem_append, List.mem_singleton, hvis y]
    tauto

/-- Every flow emitted by the Stage 5 DFS loop has duplicate-free
sequence ids, provided every stack entry satisfies `PathInv`. -/
lemma dfsEntry_nodup (maxDepth : Nat) (adj : String → List String)
    (lookup : String → Option GNode) (entryId : String)
    (hl : ∀ i n, lookup i = some n → n.id = i) :
    ∀ fuel stack fc ffe pe, (∀ s ∈ stack, PathInv s) →
      ∀ f ∈ (dfsEntry maxDepth adj lookup entryId fuel stack fc ffe pe).1,
        (f.sequence.map (fun n => n.id)).Nodup := by
  intro fuel
  induction fuel with
  | zero =>
    intro stack fc ffe pe hinv f hf
    cases stack <;> simp [dfsEntry] at hf
  | succ fuel ih =>
    intro stack fc ffe pe hinv f hf
    match stack with
    | [] => simp [dfsEntry] at hf
    | s :: rest =>
      have hs : PathInv s := hinv s (List.mem_cons_self s rest)
      have hrest : ∀ t ∈ rest, PathInv t := fun t ht => hinv t (List.mem_cons_of_mem s ht)
      have hseq : ∀ fid reason note cur,
          (((mkFlow lookup entryId cur s.path fid reason note).sequence.map
            (fun n => n.id)).Nodup) := by
        intro fid reason note cur
        show (((s.path.filterMap lookup).map (fun n => n.id)).Nodup)
        rw [sequence_map_id lookup hl]
        exact hs.1.filter _
      rw [dfsEntry] at hf
      by_cases h1 : maxPathsPerEntry ≤ pe + 1
      · rw [if_pos h1] at hf
        simp at hf
      · rw [if_neg h1] at hf
        by_cases h2 : maxFlowsPerEntry ≤ ffe
        · rw [if_pos h2] at hf
          simp at hf
        · rw [if_neg h2] at hf
          by_cases h3 : maxFlowsTotal ≤ fc
          · rw [if_pos h3] at hf
            simp at hf
          · rw [if_neg h3] at hf
            by_cases h4 : maxDepth ≤ s.path.length
            · rw [if_pos h4] at hf
              simp only [List.mem_cons] at hf
              rcases hf with rfl | hf
              · exact hseq _ _ _ _
              · exact ih rest (fc + 1) (ffe + 1) (pe + 1) hrest f hf
            · rw [if_neg h4] at hf
              cases hadj : adj s.current with
              | nil =>
                rw [hadj] at hf
                simp only [List.mem_cons] at hf
                rcases hf with rfl | hf
                · exact hseq _ _ _ _
                · exact ih rest (fc + 1) (ffe + 1) (pe + 1) hrest f hf
              | cons n ns =>
                rw [hadj] at hf
                refine ih _ fc ffe (pe + 1) ?_ f hf
                intro t ht
                rw [List.mem_append, List.mem_reverse] at ht
                rcases ht with ht | ht
                · rw [List.mem_map] at ht
                  obtain ⟨x, hxmem, rfl⟩ := ht
                  rw [List.mem_filter] at hxmem
                  refine pathInv_push hs ?_
                  have := hxmem.2
                  simpa using this
                · exact hrest t ht

/-- C4: every flow emitted by Stage 5 `enumerate_flows` has a node
sequence without repeated ids — a neighbor already on the current path
is never re-entered, so cycle avoidance is strict. Holds for every
graph, every bound and every entry-set iteration order. -/
theorem flow_sequences_are_duplicate_free (maxDepth : Nat) (g : GraphData)
    (entryIter : List String) :
    ∀ f ∈ enumerateFlows maxDepth g entryIter,
      (f.sequence.map (fun n => n.id)).Nodup := by
  intro f hf
  unfold enumerateFlows at hf
  by_cases h0 : g.nodes.isEmpty || g.entryPoints.isEmpty
  · rw [if_pos h0] at hf
    simp at hf
  · rw [if_neg h0] at hf
    have hl : ∀ i n, nodesById g.nodes i = some n → n.id = i :=
      fun _ _ h => nodesById_eq_some h
    clear h0
    -- induct over the entry iteration order, generalizing the counter
    suffices hgen : ∀ es fc, ∀ f ∈ enumerateFlowsFrom maxDepth (adjacencyOf g.edges)
        (nodesById g.nodes) es fc, (f.sequence.map (fun n => n.id)).Nodup by
      exact hgen entryIter 0 f hf
    intro es
    induction es with
    | nil =>
      intro fc f hf
      simp [enumerateFlowsFrom] at hf
    | cons e es ih =>
      intro fc f hf
      rw [enumerateFlowsFrom] at hf
      by_cases he : (nodesById g.nodes e).isNone
      · rw [if_pos he] at hf
        exact ih fc f hf
      · rw [if_neg he] at hf
        by_cases hcap : maxFlowsTotal ≤ fc
        · rw [if_pos hcap] at hf
          simp at hf
        · rw [if_neg hcap] at hf
          rw [List.mem_append] at hf
          rcases hf with hf | hf
          · refine dfsEntry_nodup maxDepth (adjacencyOf g.edges) (nodesById g.nodes) e hl
              maxPathsPerEntry [SearchState.mk e [e] [e]] fc 0 0 ?_ f hf
            intro s hsmem
            rw [List.mem_singleton] at hsmem
            subst hsmem
            exact ⟨List.nodup_singleton e, fun x => Iff.rfl⟩
          · exact ih _ f hf

/-- Witness for C4: the two-node graph `IA → IB` yields the single flow
`[IA, IB]`, whose id sequence is duplicate-free. -/
theorem flow_sequences_are_duplicate_free_witness :
    (mkFlow (nodesById [⟨"IA", "u", "CA", "fa", "tb", ⟨none, none⟩, none, false, none⟩,
        ⟨"IB", "u", "CB", "fb", "tc", ⟨none, none⟩, none, false, none⟩])
        "IA" "IB" ["IA", "IB"] 1 "no_outgoing_edges"
        (some "Leaf node in integration graph")) ∈
      enumerateFlows 20
        ⟨[⟨"IA", "u", "CA", "fa", "tb", ⟨none, none⟩, none, false, none⟩,
          ⟨"IB", "u", "CB", "fb", "tc", ⟨none, none⟩, none, false, none⟩],
         [⟨"IA", "IB", "r"⟩], ["IA"], []⟩ ["IA"] ∧
    (((mkFlow (nodesById [⟨"IA", "u", "CA", "fa", "tb", ⟨none, none⟩, none, false, none⟩,
        ⟨"IB", "u", "CB", "fb", "tc", ⟨none, none⟩, none, false, none⟩])
        "IA" "IB" ["IA", "IB"] 1 "no_outgoing_edges"
        (some "Leaf node in integration graph")).sequence.map (fun n => n.id)).Nodup) := by
  refine ⟨by decide, ?_⟩
  exact flow_sequences_are_duplicate_free 20
    ⟨[⟨"IA", "u", "CA", "fa", "tb", ⟨none, none⟩, none, false, none⟩,
      ⟨"IB", "u", "CB", "fb", "tc", ⟨none, none⟩, none, false, none⟩],
     [⟨"IA", "IB", "r"⟩], ["IA"], []⟩ ["IA"] _ (by decide)

/-- Edges with truthy endpoints appear in their source's adjacency
bucket. -/
lemma mem_adjacencyOf_of_edge {edges : List Edge} {e : Edge} (he : e ∈ edges) {c : String}
    (hc : e.from_ = c) (hf : e.from_ ≠ "") (ht : e.to_ ≠ "") :
    e.to_ ∈ adjacencyOf edges c := by
  subst hc
  unfold adjacencyOf
  rw [List.mem_map]
  refine ⟨e, ?_, rfl⟩
  rw [List.mem_filter]
  refine ⟨he, ?_⟩
  simp [hf, ht]

/-- Adjacency entries come from edges with truthy endpoints. -/
lemma exists_edge_of_mem_adjacencyOf {edges : List Edge} {c x : String}
    (h : x ∈ adjacencyOf edges c) :
    ∃ e ∈ edges, e.from_ = c ∧ e.to_ = x ∧ e.from_ ≠ "" ∧ e.to_ ≠ "" := by
  unfold adjacencyOf at h
  rw [List.mem_map] at h
  obtain ⟨e, hmem, rfl⟩ := h
  rw [List.mem_filter] at hmem
  obtain ⟨he, hcond⟩ := hmem
  simp only [Bool.and_eq_true, bne_iff_ne, ne_eq, beq_iff_eq, decide_eq_true_eq] at hcond
  exact ⟨e, he, hcond.2, rfl, hcond.1.1, hcond.1.2⟩

/-- If the last path entry is recognised by the node map, it is the
last element of the looked-up sequence. -/
lemma filterMap_getLast (lookup : String → Option GNode) :
    ∀ (path : List String) (c : String) (n : GNode), path.getLast? = some c →
      lookup c = some n → (path.filterMap lookup).getLast? = some n := by
  intro path
  induction path with
  | nil => simp
  | cons x xs ih =>
    intro c n hlast hc
    cases xs with
    | nil =>
      simp only [List.getLast?_singleton, Option.some_inj] at hlast
      subst hlast
      simp [List.filterMap_cons, hc]
    | cons y ys =>
      rw [List.getLast?_cons_cons] at hlast
      have htail := ih c n hlast hc
      rw [List.filterMap_cons]
      cases hx : lookup x with
      | none => exact htail
      | some m =>
        obtain ⟨z, zs, hzz⟩ : ∃ z zs, List.filterMap lookup (y :: ys) = z :: zs := by
          cases hh : List.filterMap lookup (y :: ys) with
          | nil => rw [hh] at htail; cases htail
          | cons z zs => exact ⟨z, zs, rfl⟩
        rw [hzz]
        rw [hzz] at htail
        rw [List.getLast?_cons_cons]
        exact htail

/-- Every `no_outgoing_edges` flow emitted by the Stage 5 DFS loop ends
at a node with an empty adjacency bucket, provided every stack entry
satisfies `LastInv` and adjacency targets are in the node map. -/
lemma dfsEntry_no_outgoing (maxDepth : Nat) (adj : String → List String)
    (lookup : String → Option GNode) (entryId : String)
    (hl : ∀ i n, lookup i = some n → n.id = i)
    (hadj : ∀ c x, x ∈ adj c → (lookup x).isSome) :
    ∀ fuel stack fc ffe pe, (∀ s ∈ stack, LastInv lookup s) →
      ∀ f ∈ (dfsEntry maxDepth adj lookup entryId fuel stack fc ffe pe).1,
        f.termination.reason = "no_outgoing_edges" →
        ∃ last, f.sequence.getLast? = some last ∧ adj last.id = [] := by
  intro fuel
  induction fuel with
  | zero =>
    intro stack fc ffe pe hinv f hf
    cases stack <;> simp [dfsEntry] at hf
  | succ fuel ih =>
    intro stack fc ffe pe hinv f hf hreason
    match stack with
    | [] => simp [dfsEntry] at hf
    | s :: rest =>
      have hs : LastInv lookup s := hinv s (List.mem_cons_self s rest)
      have hrest : ∀ t ∈ rest, LastInv lookup t := fun t ht => hinv t (List.mem_cons_of_mem s ht)
      rw [dfsEntry] at hf
      by_cases h1 : maxPathsPerEntry ≤ pe + 1
      · rw [if_pos h1] at hf
        simp at hf
      · rw [if_neg h1] at hf
        by_cases h2 : maxFlowsPerEntry ≤ ffe
        · rw [if_pos h2] at hf
          simp at hf
        · rw [if_neg h2] at hf
          by_cases h3 : maxFlowsTotal ≤ fc
          · rw [if_pos h3] at hf
            simp at hf
          · rw [if_neg h3] at hf
            by_cases h4 : maxDepth ≤ s.path.length
            · rw [if_pos h4] at hf
              simp only [List.mem_cons] at hf
              rcases hf with rfl | hf
              · simp [mkFlow] at hreason
              · exact ih rest (fc + 1) (ffe + 1) (pe + 1) hrest f hf hreason
            · rw [if_neg h4] at hf
              cases hadjcur : adj s.current with
              | nil =>
                rw [hadjcur] at hf
                simp only [List.mem_cons] at hf
                rcases hf with rfl | hf
                · obtain ⟨hlast, hsome⟩ := hs
                  obtain ⟨n, hn⟩ := Option.isSome_iff_exists.mp hsome
                  refine ⟨n, ?_, ?_⟩
                  · exact filterMap_getLast lookup s.path s.current n hlast hn
                  · rw [hl s.current n hn]
                    exact hadjcur
                · exact ih rest (fc + 1) (ffe + 1) (pe + 1) hrest f hf hreason
              | cons n ns =>
                rw [hadjcur] at hf
                refine ih _ fc ffe (pe + 1) ?_ f hf hreason
                intro t ht
                rw [List.mem_append, List.mem_reverse] at ht
                rcases ht with ht | ht
                · rw [List.mem_map] at ht
                  obtain ⟨x, hxmem, rfl⟩ := ht
                  rw [List.mem_filter] at hxmem
                  have hxadj : x ∈ adj s.current := by
                    rw [hadjcur]
                    exact hxmem.1
                  exact ⟨List.getLast?_concat _, hadj s.current x hxadj⟩
                · exact hrest t ht

/-- Any flow of `enumerateFlowsFrom` comes from the per-entry DFS of
one iterated entry id that the node map recognises. -/
lemma mem_enumerateFlowsFrom (maxDepth : Nat) (adj : String → List String)
    (lookup : String → Option GNode) :
    ∀ (es : List String) (fc : Nat) (f : Flow),
      f ∈ enumerateFlowsFrom maxDepth adj lookup es fc →
      ∃ e, (lookup e).isSome ∧ ∃ fc',
        f ∈ (dfsEntry maxDepth adj lookup e maxPathsPerEntry
          [SearchState.mk e [e] [e]] fc' 0 0).1 := by
  intro es
  induction es with
  | nil =>
    intro fc f hf
    simp [enumerateFlowsFrom] at hf
  | cons e es ih =>
    intro fc f hf
    rw [enumerateFlowsFrom] at hf
    by_cases he : (lookup e).isNone
    · rw [if_pos he] at hf
      exact ih fc f hf
    · rw [if_neg he] at hf
      by_cases hcap : maxFlowsTotal ≤ fc
      · rw [if_pos hcap] at hf
        simp at hf
      · rw [if_neg hcap] at hf
        rw [List.mem_append] at hf
        rcases hf with hf | hf
        · refine ⟨e, ?_, fc, hf⟩
          cases hle : lookup e with
          | none => exact absurd (by rw [hle]; rfl) he
          | some n => rfl
        · exact ih _ f hf

/-- C5: the Stage 5 step checks the depth limit before the leaf check —
a branch whose path length has reached `max_flow_depth` emits a
`depth_limit` flow (whatever its adjacency), a shorter branch at a node
with an empty adjacency bucket emits a `no_outgoing_edges` flow, and
every emitted `no_outgoing_edges` flow ends at a node that no edge of
the graph leaves. The last part assumes the Stage 3 output contract:
every edge has non-empty endpoints and its target id is a node id. -/
theorem depth_limit_checked_before_leaf (maxDepth : Nat) (g : GraphData)
    (entryIter : List String)
    (hwf1 : ∀ e ∈ g.edges, e.from_ ≠ "" ∧ e.to_ ≠ "")
    (hwf2 : ∀ e ∈ g.edges, ∃ n ∈ g.nodes, n.id = e.to_) :
    (∀ (adj : String → List String) (lookup : String → Option GNode) (entryId : String)
        (fuel : Nat) (s : SearchState) (rest : List SearchState) (fc ffe pe : Nat),
      pe + 1 < maxPathsPerEntry → ffe < maxFlowsPerEntry → fc < maxFlowsTotal →
      maxDepth ≤ s.path.length →
      (dfsEntry maxDepth adj lookup entryId (fuel + 1) (s :: rest) fc ffe pe).1 =
        mkFlow lookup entryId s.current s.path (fc + 1) "depth_limit"
          (some ("Flow exceeded maximum depth of " ++ natToString maxDepth ++ " hops")) ::
        (dfsEntry maxDepth adj lookup entryId fuel rest (fc + 1) (ffe + 1) (pe + 1)).1) ∧
    (∀ (adj : String → List String) (lookup : String → Option GNode) (entryId : String)
        (fuel : Nat) (s : SearchState) (rest : List SearchState) (fc ffe pe : Nat),
      pe + 1 < maxPathsPerEntry → ffe < maxFlowsPerEntry → fc < maxFlowsTotal →
      s.path.length < maxDepth → adj s.current = [] →
      (dfsEntry maxDepth adj lookup entryId (fuel + 1) (s :: rest) fc ffe pe).1 =
        mkFlow lookup entryId s.current s.path (fc + 1) "no_outgoing_edges"
          (noOutgoingNote lookup s.current) ::
        (dfsEntry maxDepth adj lookup entryId fuel rest (fc + 1) (ffe + 1) (pe + 1)).1) ∧
    (∀ f ∈ enumerateFlows maxDepth g entryIter,
      f.termination.reason = "no_outgoing_edges" →
      ∃ last, f.sequence.getLast? = some last ∧ ∀ e ∈ g.edges, e.from_ ≠ last.id) := by
  refine ⟨?_, ?_, ?_⟩
  · intro adj lookup entryId fuel s rest fc ffe pe h1 h2 h3 h4
    rw [dfsEntry, if_neg (Nat.not_le.mpr h1), if_neg (Nat.not_le.mpr h2),
      if_neg (Nat.not_le.mpr h3), if_pos h4]
  · intro adj lookup entryId fuel s rest fc ffe pe h1 h2 h3 h4 hadj
    rw [dfsEntry, if_neg (Nat.not_le.mpr h1), if_neg (Nat.not_le.mpr h2),
      if_neg (Nat.not_le.mpr h3), if_neg (Nat.not_le.mpr h4), hadj]
  · intro f hf hreason
    unfold enumerateFlows at hf
    by_cases h0 : g.nodes.isEmpty || g.entryPoints.isEmpty
    · rw [if_pos h0] at hf
      simp at hf
    · rw [if_neg h0] at hf
      have hl : ∀ i n, nodesById g.nodes i = some n → n.id = i :=
        fun _ _ h => nodesById_eq_some h
      have hadjsome : ∀ c x, x ∈ adjacencyOf g.edges c → (nodesById g.nodes x).isSome := by
        intro c x hx
        obtain ⟨e, he, _, hto, _, _⟩ := exists_edge_of_mem_adjacencyOf hx
        obtain ⟨n, hn, hni⟩ := hwf2 e he
        rw [nodesById_isSome]
        exact ⟨n, hn, hto ▸ hni⟩
      obtain ⟨e, hesome, fc', hin⟩ :=
        mem_enumerateFlowsFrom maxDepth (adjacencyOf g.edges) (nodesById g.nodes)
          entryIter 0 f hf
      obtain ⟨last, hlast, hempty⟩ :=
        dfsEntry_no_outgoing maxDepth (adjacencyOf g.edges) (nodesById g.nodes) e hl
          hadjsome maxPathsPerEntry [SearchState.mk e [e] [e]] fc' 0 0
          (by
            intro s hs
            rw [List.mem_singleton] at hs
            subst hs
            exact ⟨rfl, hesome⟩)
          f hin hreason
      refine ⟨last, hlast, ?_⟩
      intro ed hed hfrom
      obtain ⟨hf1, hf2⟩ := hwf1 ed hed
      have : ed.to_ ∈ adjacencyOf g.edges last.id :=
        mem_adjacencyOf_of_edge hed hfrom hf1 hf2
      rw [hempty] at this
      simp at this

/-- Witness for C5: in the graph `IA → IB`, the single flow terminates
with `no_outgoing_edges` at `IB`, which no edge leaves; and the
depth-step equation instantiated at a concrete state emits a
`depth_limit` flow. -/
theorem depth_limit_checked_before_leaf_witness :
    (∃ last,
      ((mkFlow (nodesById [⟨"IA", "u", "CA", "fa", "tb", ⟨none, none⟩, none, false, none⟩,
          ⟨"IB", "u", "CB", "fb", "tc", ⟨none, none⟩, none, false, none⟩])
          "IA" "IB" ["IA", "IB"] 1 "no_outgoing_edges"
          (some "Leaf node in integration graph")).sequence.getLast? = some last) ∧
      ∀ e ∈ [(⟨"IA", "IB", "r"⟩ : Edge)], e.from_ ≠ last.id) ∧
    (dfsEntry 2 (fun _ => []) (fun _ => none) "IA" 1
        [SearchState.mk "IB" ["IA", "IB"] ["IB", "IA"]] 0 0 0).1 =
      [mkFlow (fun _ => none) "IA" "IB" ["IA", "IB"] 1 "depth_limit"
        (some ("Flow exceeded maximum depth of " ++ natToString 2 ++ " hops"))] := by
  constructor
  · have h := depth_limit_checked_before_leaf 20
      ⟨[⟨"IA", "u", "CA", "fa", "tb", ⟨none, none⟩, none, false, none⟩,
        ⟨"IB", "u", "CB", "fb", "tc", ⟨none, none⟩, none, false, none⟩],
       [⟨"IA", "IB", "r"⟩], ["IA"], []⟩ ["IA"]
      (by decide) (by decide)
    exact h.2.2 _ (by decide) rfl
  · have h := depth_limit_checked_before_leaf 2
      ⟨[], [], [], []⟩ [] (by simp) (by simp)
    rw [h.1 (fun _ => []) (fun _ => none) "IA" 0
      (SearchState.mk "IB" ["IA", "IB"] ["IB", "IA"]) [] 0 0 0
      (by decide) (by decide) (by decide) (by decide)]
    rfl

/-- C8 (refuting evaluation): Stage 5 iterates `set(entryPoints)`, a
hash-ordered collection, so the output is a function of the iteration
order the runtime happens to choose, not of the graph alone. Two orders
of the same two-element entry set — both permutations of the same set,
hence both obtainable from `set` iteration — yield different outputs
(the flow ids `FLOW_0001`/`FLOW_0002` swap between the two entries). -/
theorem enumerate_flows_depends_on_set_iteration_order :
    (["IA", "IB"] : List String).Perm ["IB", "IA"] ∧
    enumerateFlows 20
        ⟨[⟨"IA", "u", "CA", "fa", "tb", ⟨none, none⟩, none, false, none⟩,
          ⟨"IB", "u", "CB", "fb", "tc", ⟨none, none⟩, none, false, none⟩],
         [], ["IA", "IB"], []⟩ ["IA", "IB"] ≠
      enumerateFlows 20
        ⟨[⟨"IA", "u", "CA", "fa", "tb", ⟨none, none⟩, none, false, none⟩,
          ⟨"IB", "u", "CB", "fb", "tc", ⟨none, none⟩, none, false, none⟩],
         [], ["IA", "IB"], []⟩ ["IB", "IA"] := by
  exact ⟨by decide, by decide⟩

/-- C6: Stage 6 skips every flow shorter than `min_window_length`; an
eligible flow of length `L` yields exactly `L - window_size + 1`
windows, the `k`-th covering the contiguous slice `[k, k + window_size)`
and flagging its exit as a boundary iff the last node of the slice
carries a boundary descriptor; with `min = 2`, `max = 3` that is
`L - 3 + 1` windows of size 3 when `L ≥ 3` and a single full-length
window when `L = 2`; and `generate_windows` emits exactly the per-flow
windows in flow order. -/
theorem sliding_windows_cover_each_flow (minLength : Nat) (maxLength : Option Nat)
    (counter : Nat) (f : Flow) :
    (f.sequence.length < minLength → (windowsForFlow minLength maxLength counter f).1 = []) ∧
    (minLength ≤ f.sequence.length →
      (windowsForFlow minLength maxLength counter f).1.length =
        f.sequence.length - windowSize maxLength f.sequence.length + 1 ∧
      (∀ k, k < f.sequence.length - windowSize maxLength f.sequence.length + 1 →
        ∃ w, (windowsForFlow minLength maxLength counter f).1[k]? = some w ∧
          w.startPosition = k ∧
          w.sequence = (f.sequence.drop k).take (windowSize maxLength f.sequence.length) ∧
          w.sequence.length = windowSize maxLength f.sequence.length ∧
          (1 ≤ windowSize maxLength f.sequence.length →
            ∃ last, w.sequence.getLast? = some last ∧
              w.exitPoint.isBoundary = last.boundary.isSome))) ∧
    (minLength = 2 → maxLength = some 3 →
      (3 ≤ f.sequence.length →
        (windowsForFlow minLength maxLength counter f).1.length =
          f.sequence.length - 3 + 1) ∧
      (f.sequence.length = 2 →
        (windowsForFlow minLength maxLength counter f).1.length = 1 ∧
        (mkWindow f (counter + 1) 0 2).sequence = f.sequence)) ∧
    (∀ fs, generateWindows minLength maxLength (f :: fs) counter =
      (windowsForFlow minLength maxLength counter f).1 ++
        generateWindows minLength maxLength fs
          (windowsForFlow minLength maxLength counter f).2) := by
  have hws_le : windowSize maxLength f.sequence.length ≤ f.sequence.length :=
    Nat.min_le_right _ _
  refine ⟨?_, ?_, ?_, ?_⟩
  · intro h
    unfold windowsForFlow
    rw [if_pos h]
  · intro hmin
    have hnl : ¬ (f.sequence.length < minLength) := Nat.not_lt.mpr hmin
    unfold windowsForFlow
    rw [if_neg hnl]
    constructor
    · simp
    · intro k hk
      refine ⟨mkWindow f (counter + k + 1) k (windowSize maxLength f.sequence.length),
        ?_, rfl, rfl, ?_, ?_⟩
      · simp [List.getElem?_map, List.getElem?_range, hk]
      · show (((f.sequence.drop k).take (windowSize maxLength f.sequence.length)).length = _)
        simp only [List.length_take, List.length_drop]
        omega
      · intro h1
        have hlen : (((f.sequence.drop k).take
            (windowSize maxLength f.sequence.length)).length =
              windowSize maxLength f.sequence.length) := by
          simp only [List.length_take, List.length_drop]
          omega
        have hne : ((f.sequence.drop k).take (windowSize maxLength f.sequence.length)) ≠ [] := by
          intro hc
          rw [hc] at hlen
          simp at hlen
          omega
        obtain ⟨last, hlast⟩ :=
          Option.isSome_iff_exists.mp (List.getLast?_isSome.mpr hne)
        refine ⟨last, hlast, ?_⟩
        show ((((f.sequence.drop k).take
          (windowSize maxLength f.sequence.length)).getLastD placeholderGNode).boundary.isSome = _)
        rw [List.getLastD_eq_getLast?, hlast]
        rfl
  · rintro rfl rfl
    constructor
    · intro h3
      have hnl : ¬ (f.sequence.length < 2) := by omega
      unfold windowsForFlow
      rw [if_neg hnl]
      have hws : windowSize (some 3) f.sequence.length = 3 := Nat.min_eq_left h3
      simp [hws]
    · intro h2
      have hnl : ¬ (f.sequence.length < 2) := by omega
      have hws : windowSize (some 3) f.sequence.length = 2 := by
        rw [h2]
        rfl
      constructor
      · unfold windowsForFlow
        rw [if_neg hnl]
        simp [hws, h2]
        decide
      · show (((f.sequence.drop 0).take 2) = f.sequence)
        rw [List.drop_zero, ← h2, List.take_length]
  · intro fs
    rfl

/-- Witness for C6 at a concrete flow of length 4 with a boundary on
its last node, `min = 2`, `max = 3`: two windows; the window at offset
1 covers nodes 2-4 and flags its exit as a boundary. -/
theorem sliding_windows_cover_each_flow_witness :
    ((windowsForFlow 2 (some 3) 0
      ⟨"FLOW_0001", "d", 4,
        [⟨"W1", "u", "c", "n", "t", ⟨none, none⟩, none, false, none⟩,
         ⟨"W2", "u", "c", "n", "t", ⟨none, none⟩, none, false, none⟩,
         ⟨"W3", "u", "c", "n", "t", ⟨none, none⟩, none, false, none⟩,
         ⟨"W4", "u", "c", "n", "t", ⟨none, none⟩, some ⟨"filesystem"⟩, false, none⟩],
        ⟨"W1", "u", "c", "n", "w"⟩, ⟨"W4", "no_outgoing_edges", none⟩⟩).1.length = 4 - 3 + 1) ∧
    (∃ w, (windowsForFlow 2 (some 3) 0
      ⟨"FLOW_0001", "d", 4,
        [⟨"W1", "u", "c", "n", "t", ⟨none, none⟩, none, false, none⟩,
         ⟨"W2", "u", "c", "n", "t", ⟨none, none⟩, none, false, none⟩,
         ⟨"W3", "u", "c", "n", "t", ⟨none, none⟩, none, false, none⟩,
         ⟨"W4", "u", "c", "n", "t", ⟨none, none⟩, some ⟨"filesystem"⟩, false, none⟩],
        ⟨"W1", "u", "c", "n", "w"⟩, ⟨"W4", "no_outgoing_edges", none⟩⟩).1[1]? = some w ∧
      w.startPosition = 1 ∧
      (∃ last, w.sequence.getLast? = some last ∧
        w.exitPoint.isBoundary = last.boundary.isSome)) := by
  have h := sliding_windows_cover_each_flow 2 (some 3) 0
    ⟨"FLOW_0001", "d", 4,
      [⟨"W1", "u", "c", "n", "t", ⟨none, none⟩, none, false, none⟩,
       ⟨"W2", "u", "c", "n", "t", ⟨none, none⟩, none, false, none⟩,
       ⟨"W3", "u", "c", "n", "t", ⟨none, none⟩, none, false, none⟩,
       ⟨"W4", "u", "c", "n", "t", ⟨none, none⟩, some ⟨"filesystem"⟩, false, none⟩],
      ⟨"W1", "u", "c", "n", "w"⟩, ⟨"W4", "no_outgoing_edges", none⟩⟩
  refine ⟨(h.2.2.1 rfl rfl).1 (by decide), ?_⟩
  obtain ⟨w, hw, hstart, _, _, hbdy⟩ := (h.2.1 (by decide)).2 1 (by decide)
  obtain ⟨last, hlast, hflag⟩ := hbdy (by decide)
  exact ⟨w, hw, hstart, last, hlast, hflag⟩

/-- A candidate accepted by `is_repeating_cycle` against the adjacency
of `edges` is a valid cycle path. -/
lemma isRepeatingCycle_valid (edges : List Edge) (cp fp : List String) (rt : String)
    (h : isRepeatingCycle cp fp rt (adjacencyOf edges) = true) :
    ValidCyclePath edges cp := by
  unfold isRepeatingCycle at h
  by_cases h3 : cp.length < 3
  · rw [if_pos h3] at h
    cases h
  · rw [if_neg h3] at h
    by_cases hne : cp.head? ≠ cp.getLast?
    · rw [if_pos hne] at h
      cases h
    · rw [if_neg hne] at h
      push_neg at hne
      refine ⟨by omega, hne, ?_⟩
      intro ab hab
      have hmemadj := List.all_eq_true.mp h ab hab
      rw [decide_eq_true_eq] at hmemadj
      obtain ⟨e, he, hf, ht, _, _⟩ := exists_edge_of_mem_adjacencyOf hmemadj
      exact ⟨e, he, hf, ht⟩

/-- Applying `recordCycle` to an already-recorded pattern changes neither the
pattern list nor the record count. -/
lemma recordCycle_mem (info : CyclePattern) :
    ∀ ps : List CyclePattern, info.pattern ∈ ps.map (fun c => c.pattern) →
      (recordCycle info ps).map (fun c => c.pattern) = ps.map (fun c => c.pattern) ∧
      (recordCycle info ps).length = ps.length := by
  intro ps
  induction ps with
  | nil => simp
  | cons r rs ih =>
    intro hmem
    unfold recordCycle
    by_cases hr : r.pattern = info.pattern
    · rw [if_pos hr]
      simp [hr]
    · rw [if_neg hr]
      have hmem' : info.pattern ∈ rs.map (fun c => c.pattern) := by
        simp only [List.map_cons, List.mem_cons] at hmem
        rcases hmem with hmem | hmem
        · exact absurd hmem.symm hr
        · exact hmem
      obtain ⟨h1, h2⟩ := ih hmem'
      constructor
      · simp only [List.map_cons]
        rw [h1]
      · simp only [List.length_cons]
        rw [h2]

/-- Applying `recordCycle` to a fresh pattern appends the new record at the
end. -/
lemma recordCycle_not_mem (info : CyclePattern) :
    ∀ ps : List CyclePattern, info.pattern ∉ ps.map (fun c => c.pattern) →
      recordCycle info ps = ps ++ [info] := by
  intro ps
  induction ps with
  | nil => intro _; rfl
  | cons r rs ih =>
    intro hmem
    unfold recordCycle
    rw [if_neg ?hne]
    case hne =>
      intro hc
      exact hmem (by simp [hc])
    rw [ih (fun hc => hmem (by simp [hc]))]
    rfl

/-- The function `recordCycle` increments the occurrence counter of exactly the
first record with the same pattern. -/
lemma recordCycle_increments (info : CyclePattern) (l : List CyclePattern)
    (r : CyclePattern) (t : List CyclePattern)
    (hl : ∀ x ∈ l, x.pattern ≠ info.pattern) (hr : r.pattern = info.pattern) :
    recordCycle info (l ++ r :: t) =
      l ++ { r with occurrences := r.occurrences + 1 } :: t := by
  induction l with
  | nil =>
    simp only [List.nil_append]
    unfold recordCycle
    rw [if_pos hr]
  | cons x xs ih =>
    simp only [List.cons_append]
    unfold recordCycle
    rw [if_neg (hl x (List.mem_cons_self x xs))]
    rw [ih (fun y hy => hl y (List.mem_cons_of_mem x hy))]

/-- Patterns in a `recordCycle` result are the new pattern or an old
one, so pattern-level predicates are preserved. -/
lemma recordCycle_forall (P : List String → Prop) (info : CyclePattern) :
    ∀ ps : List CyclePattern, P info.pattern → (∀ c ∈ ps, P c.pattern) →
      ∀ c ∈ recordCycle info ps, P c.pattern := by
  intro ps
  induction ps with
  | nil =>
    intro hinfo _ c hc
    simp only [recordCycle, List.mem_singleton] at hc
    subst hc
    exact hinfo
  | cons r rs ih =>
    intro hinfo hps c hc
    unfold recordCycle at hc
    by_cases hr : r.pattern = info.pattern
    · rw [if_pos hr] at hc
      rcases List.mem_cons.mp hc with rfl | hc'
      · exact hps r (List.mem_cons_self r rs)
      · exact hps c (List.mem_cons_of_mem r hc')
    · rw [if_neg hr] at hc
      rcases List.mem_cons.mp hc with rfl | hc'
      · exact hps c (List.mem_cons_self c rs)
      · exact ih hinfo (fun d hd => hps d (List.mem_cons_of_mem r hd)) c hc'

/-- The function `recordCycle` keeps the recorded patterns pairwise distinct. -/
lemma recordCycle_nodup (info : CyclePattern) (ps : List CyclePattern)
    (hnd : (ps.map (fun c => c.pattern)).Nodup) :
    ((recordCycle info ps).map (fun c => c.pattern)).Nodup := by
  by_cases hmem : info.pattern ∈ ps.map (fun c => c.pattern)
  · rw [(recordCycle_mem info ps hmem).1]
    exact hnd
  · rw [recordCycle_not_mem info ps hmem, List.map_append]
    rw [List.nodup_append]
    refine ⟨hnd, by simp, ?_⟩
    intro a ha hb
    simp only [List.map_cons, List.map_nil, List.mem_singleton] at hb
    subst hb
    exact hmem ha

/-- The neighbor loop preserves the cycle-record invariant. -/
lemma processNeighbors_cycleInv (edges : List Edge) (lookup : String → Option GNode)
    (path : List String) (visited : List (String × List Nat)) :
    ∀ (ns : List String) (patterns : List CyclePattern), CycleInv edges patterns →
      CycleInv edges
        (processNeighbors (adjacencyOf edges) lookup path visited patterns ns).1 := by
  intro ns
  induction ns with
  | nil => exact fun patterns h => h
  | cons n rest ih =>
    intro patterns h
    unfold processNeighbors
    split
    · rename_i prevs hlp
      split
      · rename_i cyclePath hfv
        have hvalid : ValidCyclePath edges cyclePath := by
          obtain ⟨prev, _, hsome⟩ := List.exists_of_findSome?_eq_some hfv
          by_cases hb : isRepeatingCycle (path.drop prev ++ [n]) path n
              (adjacencyOf edges) = true
          · rw [if_pos hb] at hsome
            cases hsome
            exact isRepeatingCycle_valid edges _ path n hb
          · rw [if_neg hb] at hsome
            cases hsome
        exact ⟨recordCycle_forall (ValidCyclePath edges) _ patterns hvalid h.1,
          recordCycle_nodup _ patterns h.2⟩
      · exact ih patterns h
    · exact ih patterns h

/-- The Stage 4 DFS loop preserves the cycle-record invariant
(`recordFlowPat` never touches the cycle list). -/
lemma patLoop_cycleInv (maxDepth longThresh : Nat) (edges : List Edge)
    (lookup : String → Option GNode) (terminalIds : List String) :
    ∀ (fuel : Nat) (stack : List PatState) (acc : PatAccum), CycleInv edges acc.cycles →
      CycleInv edges
        ((patLoop maxDepth longThresh (adjacencyOf edges) lookup terminalIds
          fuel stack acc).cycles) := by
  intro fuel
  induction fuel with
  | zero =>
    intro stack acc h
    cases stack <;> exact h
  | succ fuel ih =>
    intro stack acc h
    cases stack with
    | nil => exact h
    | cons s rest =>
      rw [patLoop]
      by_cases h1 : s.current ∈ terminalIds
      · rw [if_pos h1]
        exact ih rest _ h
      · rw [if_neg h1]
        by_cases h2 : (((lookup s.current).map (fun n => n.excludeFromFlows)).getD false) = true
        · rw [if_pos h2]
          exact ih rest _ h
        · rw [if_neg h2]
          by_cases h3 : maxDepth ≤ s.path.length
          · rw [if_pos h3]
            exact ih rest _ h
          · rw [if_neg h3]
            exact ih _ _ (processNeighbors_cycleInv edges lookup s.path s.visited _ _ h)

/-- The outer entry loop preserves the cycle-record invariant. -/
lemma analyzeFrom_cycleInv (maxDepth longThresh : Nat) (edges : List Edge)
    (lookup : String → Option GNode) (terminalIds : List String) (fuel : Nat) :
    ∀ (es : List String) (acc : PatAccum), CycleInv edges acc.cycles →
      CycleInv edges
        ((analyzeFrom maxDepth longThresh (adjacencyOf edges) lookup terminalIds
          fuel es acc).cycles) := by
  intro es
  induction es with
  | nil => exact fun acc h => h
  | cons e es ih =>
    intro acc h
    rw [analyzeFrom]
    by_cases he : (lookup e).isNone = true
    · rw [if_pos he]
      exact ih acc h
    · rw [if_neg he]
      exact ih _ (patLoop_cycleInv maxDepth longThresh edges lookup terminalIds
        fuel _ acc h)

/-- Stable descending insertion permutes a cons. -/
lemma insertDescBy_perm {α : Type} (key : α → Nat) (a : α) :
    ∀ l : List α, (insertDescBy key a l).Perm (a :: l) := by
  intro l
  induction l with
  | nil => exact List.Perm.refl _
  | cons x xs ih =>
    unfold insertDescBy
    by_cases hx : key x ≤ key a
    · rw [if_pos hx]
    · rw [if_neg hx]
      exact (ih.cons x).trans (List.Perm.swap a x xs)

/-- The stable descending sort is a permutation. -/
lemma sortDescBy_perm {α : Type} (key : α → Nat) :
    ∀ l : List α, (sortDescBy key l).Perm l := by
  intro l
  induction l with
  | nil => exact List.Perm.refl _
  | cons x xs ih =>
    exact (insertDescBy_perm key x (sortDescBy key xs)).trans (ih.cons x)

/-- The cycle list of the Stage 4 output is the recorded list sorted
by descending occurrences. -/
lemma buildAnalysisResults_cycles (counts : List (List String × Nat))
    (cyclePatterns : List CyclePattern) (flowLengths : List Nat)
    (lookup : String → Option GNode) (a b c : Nat) :
    (buildAnalysisResults counts cyclePatterns flowLengths lookup a b c).cycles =
      sortDescBy (fun cp => cp.occurrences) cyclePatterns := rfl

/-- C9: every cycle in the Stage 4 output has node-sequence length at
least 3, equal first and last ids, and every consecutive pair an edge
of the graph; the recorded patterns are pairwise distinct; and
re-discovery of an identical node sequence adds no record but
increments the first matching record's occurrence counter (a fresh
sequence is appended). -/
theorem recorded_cycles_are_valid_and_deduplicated (maxDepth longThresh : Nat)
    (g : GraphData) (entryIter : List String) (fuel : Nat) :
    (∀ c ∈ (analyzePatterns maxDepth longThresh g entryIter fuel).cycles,
      3 ≤ c.pattern.length ∧ c.pattern.head? = c.pattern.getLast? ∧
      ∀ ab ∈ c.pattern.zip c.pattern.tail,
        ∃ e ∈ g.edges, e.from_ = ab.1 ∧ e.to_ = ab.2) ∧
    ((analyzePatterns maxDepth longThresh g entryIter fuel).cycles.map
      (fun c => c.pattern)).Nodup ∧
    (∀ (info : CyclePattern) (ps : List CyclePattern),
      info.pattern ∈ ps.map (fun c => c.pattern) →
      (recordCycle info ps).map (fun c => c.pattern) = ps.map (fun c => c.pattern) ∧
      (recordCycle info ps).length = ps.length) ∧
    (∀ (info : CyclePattern) (l : List CyclePattern) (r : CyclePattern)
        (t : List CyclePattern), (∀ x ∈ l, x.pattern ≠ info.pattern) →
      r.pattern = info.pattern →
      recordCycle info (l ++ r :: t) =
        l ++ { r with occurrences := r.occurrences + 1 } :: t) ∧
    (∀ (info : CyclePattern) (ps : List CyclePattern),
      info.pattern ∉ ps.map (fun c => c.pattern) → recordCycle info ps = ps ++ [info]) := by
  have hmain : CycleInv g.edges
      (analyzePatterns maxDepth longThresh g entryIter fuel).cycles := by
    unfold analyzePatterns
    by_cases h0 : (g.nodes.isEmpty || g.entryPoints.isEmpty) = true
    · rw [if_pos h0]
      exact ⟨by simp, by simp⟩
    · rw [if_neg h0]
      have hacc := analyzeFrom_cycleInv maxDepth longThresh g.edges (nodesById g.nodes)
        g.terminalNodes fuel entryIter ⟨[], [], [], 0, 0⟩ ⟨by simp, by simp⟩
      rw [buildAnalysisResults_cycles]
      have hperm := sortDescBy_perm (fun cp : CyclePattern => cp.occurrences)
        (analyzeFrom maxDepth longThresh (adjacencyOf g.edges) (nodesById g.nodes)
          g.terminalNodes fuel entryIter ⟨[], [], [], 0, 0⟩).cycles
      constructor
      · intro c hc
        exact hacc.1 c (hperm.mem_iff.mp hc)
      · exact ((hperm.map (fun c => c.pattern)).nodup_iff).mpr hacc.2
  refine ⟨?_, hmain.2, ?_, ?_, ?_⟩
  · intro c hc
    exact hmain.1 c hc
  · exact fun info ps h => recordCycle_mem info ps h
  · exact fun info l r t hl hr => recordCycle_increments info l r t hl hr
  · exact fun info ps h => recordCycle_not_mem info ps h

/-- Witness for C9: in the two-node cycle graph `IA → IB → IA`, Stage 4
records exactly the cycle `[IA, IB, IA]`, valid and deduplicated; and
`recordCycle` on a duplicate increments the existing record instead of
appending. -/
theorem recorded_cycles_are_valid_and_deduplicated_witness :
    ((⟨["IA", "IB", "IA"], 3, 1,
        [⟨"IA", "u", "tb", "u::tb"⟩, ⟨"IB", "u", "tc", "u::tc"⟩,
         ⟨"IA", "u", "tb", "u::tb"⟩]⟩ : CyclePattern) ∈
      (analyzePatterns 40 8
        ⟨[⟨"IA", "u", "CA", "fa", "tb", ⟨none, none⟩, none, false, none⟩,
          ⟨"IB", "u", "CB", "fb", "tc", ⟨none, none⟩, none, false, none⟩],
         [⟨"IA", "IB", "r"⟩, ⟨"IB", "IA", "r"⟩], ["IA"], []⟩ ["IA"] 50).cycles) ∧
    (3 ≤ (["IA", "IB", "IA"] : List String).length) ∧
    (recordCycle (⟨["A", "B", "A"], 3, 1, []⟩ : CyclePattern)
      [⟨["A", "B", "A"], 3, 2, []⟩] = [⟨["A", "B", "A"], 3, 3, []⟩]) ∧
    (recordCycle (⟨["X", "Y", "X"], 3, 1, []⟩ : CyclePattern) [] =
      [⟨["X", "Y", "X"], 3, 1, []⟩]) := by
  have h := recorded_cycles_are_valid_and_deduplicated 40 8
    ⟨[⟨"IA", "u", "CA", "fa", "tb", ⟨none, none⟩, none, false, none⟩,
      ⟨"IB", "u", "CB", "fb", "tc", ⟨none, none⟩, none, false, none⟩],
     [⟨"IA", "IB", "r"⟩, ⟨"IB", "IA", "r"⟩], ["IA"], []⟩ ["IA"] 50
  refine ⟨by decide, ?_, ?_, ?_⟩
  · exact (h.1 ⟨["IA", "IB", "IA"], 3, 1,
      [⟨"IA", "u", "tb", "u::tb"⟩, ⟨"IB", "u", "tc", "u::tc"⟩,
       ⟨"IA", "u", "tb", "u::tb"⟩]⟩ (by decide)).1
  · exact h.2.2.2.1 ⟨["A", "B", "A"], 3, 1, []⟩ [] ⟨["A", "B", "A"], 3, 2, []⟩ []
      (by simp) rfl
  · exact h.2.2.2.2 ⟨["X", "Y", "X"], 3, 1, []⟩ [] (by simp)

/-- Destructuring a confirmed cycle. -/
lemma confirmedCycle_some {adj : String → List String} {path : List String}
    {visited : List (String × List Nat)} {n : String} {cp : List String}
    (h : confirmedCycle adj path visited n = some cp) :
    ∃ prevs, lookupPositions visited n = some prevs ∧
      firstValidCycle path n prevs adj = some cp := by
  unfold confirmedCycle at h
  cases hlp : lookupPositions visited n with
  | none =>
    rw [hlp] at h
    cases h
  | some prevs =>
    rw [hlp] at h
    exact ⟨prevs, rfl, h⟩

/-- When a neighbor closes a confirmed cycle and no earlier neighbor
did, the neighbor loop records that cycle and stops: its result is
independent of every neighbor after the cycle-closing one, and its
pushes are exactly those of the earlier neighbors. -/
lemma processNeighbors_stop (adj : String → List String) (lookup : String → Option GNode)
    (path : List String) (visited : List (String × List Nat)) (n : String)
    (cp : List String) (h2 : confirmedCycle adj path visited n = some cp) :
    ∀ (ns₁ : List String) (patterns : List CyclePattern) (ns₂ : List String),
      (processNeighbors adj lookup path visited patterns ns₁).2.2 = false →
      processNeighbors adj lookup path visited patterns (ns₁ ++ n :: ns₂) =
        (recordCycle (buildCycleInfo cp lookup) patterns,
         (processNeighbors adj lookup path visited patterns ns₁).2.1, true) := by
  intro ns₁
  induction ns₁ with
  | nil =>
    intro patterns ns₂ h1
    obtain ⟨prevs, hlp, hfv⟩ := confirmedCycle_some h2
    simp only [List.nil_append, processNeighbors, hlp, hfv]
  | cons m ms ih =>
    intro patterns ns₂ h1
    simp only [List.cons_append]
    cases hlp : lookupPositions visited m with
    | some prevs =>
      cases hfv : firstValidCycle path m prevs adj with
      | some cpm =>
        exfalso
        simp only [processNeighbors, hlp, hfv] at h1
        exact absurd h1 (by decide)
      | none =>
        simp only [processNeighbors, hlp, hfv] at h1 ⊢
        exact ih patterns ns₂ h1
    | none =>
      simp only [processNeighbors, hlp] at h1 ⊢
      rw [ih patterns ns₂ h1]

/-- C10: once one neighbor of the current node closes a confirmed
cycle, `analyze_patterns` stops the neighbor loop: the cycle is
recorded, the result does not depend on the remaining neighbors, and no
state for any later neighbor — visited or not — is pushed onto the
search stack (the pushes are exactly those of the neighbors before the
cycle-closing one). -/
theorem confirmed_cycle_stops_neighbor_expansion (adj : String → List String)
    (lookup : String → Option GNode) (path : List String)
    (visited : List (String × List Nat)) (patterns : List CyclePattern)
    (ns₁ : List String) (n : String) (cp : List String) (ns₂ ns₂' : List String)
    (h1 : (processNeighbors adj lookup path visited patterns ns₁).2.2 = false)
    (h2 : confirmedCycle adj path visited n = some cp) :
    processNeighbors adj lookup path visited patterns (ns₁ ++ n :: ns₂) =
      (recordCycle (buildCycleInfo cp lookup) patterns,
       (processNeighbors adj lookup path visited patterns ns₁).2.1, true) ∧
    processNeighbors adj lookup path visited patterns (ns₁ ++ n :: ns₂) =
      processNeighbors adj lookup path visited patterns (ns₁ ++ n :: ns₂') := by
  have ha := processNeighbors_stop adj lookup path visited n cp h2 ns₁ patterns ns₂ h1
  have hb := processNeighbors_stop adj lookup path visited n cp h2 ns₁ patterns ns₂' h1
  exact ⟨ha, ha.trans hb.symm⟩

/-- Witness for C10: at node `IB` of a concrete graph with neighbor
list `[IC, IA, ID]`, the visited neighbor `IA` closes the cycle
`[IA, IB, IA]`; the loop records it, keeps only `IC`'s push, and never
pushes `ID`. -/
theorem confirmed_cycle_stops_neighbor_expansion_witness :
    processNeighbors
        (fun c => if c = "IA" then ["IB"] else if c = "IB" then ["IC", "IA", "ID"] else [])
        (nodesById [⟨"IA", "u", "CA", "fa", "tb", ⟨none, none⟩, none, false, none⟩,
          ⟨"IB", "u", "CB", "fb", "tc", ⟨none, none⟩, none, false, none⟩])
        ["IA", "IB"] [("IA", [0]), ("IB", [1])] [] (["IC"] ++ "IA" :: ["ID"]) =
      (recordCycle (buildCycleInfo ["IA", "IB", "IA"]
          (nodesById [⟨"IA", "u", "CA", "fa", "tb", ⟨none, none⟩, none, false, none⟩,
            ⟨"IB", "u", "CB", "fb", "tc", ⟨none, none⟩, none, false, none⟩])) [],
       (processNeighbors
          (fun c => if c = "IA" then ["IB"] else if c = "IB" then ["IC", "IA", "ID"] else [])
          (nodesById [⟨"IA", "u", "CA", "fa", "tb", ⟨none, none⟩, none, false, none⟩,
            ⟨"IB", "u", "CB", "fb", "tc", ⟨none, none⟩, none, false, none⟩])
          ["IA", "IB"] [("IA", [0]), ("IB", [1])] [] ["IC"]).2.1, true) := by
  exact (confirmed_cycle_stops_neighbor_expansion
    (fun c => if c = "IA" then ["IB"] else if c = "IB" then ["IC", "IA", "ID"] else [])
    (nodesById [⟨"IA", "u", "CA", "fa", "tb", ⟨none, none⟩, none, false, none⟩,
      ⟨"IB", "u", "CB", "fb", "tc", ⟨none, none⟩, none, false, none⟩])
    ["IA", "IB"] [("IA", [0]), ("IB", [1])] [] ["IC"] "IA" ["IA", "IB", "IA"]
    ["ID"] ["ID"] (by decide) (by decide)).1

end IntegrationFlow
